import Mathlib

/-!
Verification development for the secretvaults cluster orchestration and
secret-sharing transform pipeline.

The embedding follows the TypeScript sources:
* `src/common/cluster.ts` — `executeOnCluster`, `findAllotPathsAndValues`,
  `prepareRequest`, `processPlaintextResponse`, `processConcealedListResponse`
  (first variant), and `prepareConcealedRequest`, `preparePlaintextRequest`
  (second variant);
* `src/common/blindfold.ts` — `conceal` (with its inner `encryptDeep`) and
  `reveal`;
* `src/user.ts` — the prepare step of `SecretVaultUserClient.createData`.

External primitives of `@nillion/blindfold` (`encrypt`, `allot`, `unify`) are
out of repository scope; they are modelled from the specification's interface
contract and are marked `Modelled from the spec:` below.

JavaScript values are embedded as the JSON-like type `JVal` (objects are
association lists with the source's insertion order; `undef` models the
JavaScript value `undefined`).  Machine numbers that the pipeline conceals are
arbitrary-precision integers per the primitive's contract, so they are `Int`.
-/

namespace SecretVaults

/-! ## Cluster executor (`executeOnCluster`, first variant of cluster.ts) -/

/-- A node client, reduced to the stable identity the executor uses
(`client.id.toString()`). -/
structure Client where
  id : String
  deriving DecidableEq, Repr

/-- The `cause` carried by an error rejected from a node operation;
`executeOnCluster` reads `cause?.status` and `cause?.body`. -/
structure ErrCause where
  status : Option Nat
  body : Option String
  deriving DecidableEq, Repr

/-- An error value rejected by a node operation: `executeOnCluster` reads
`error?.message` and `error.cause`. -/
structure NodeError where
  message : Option String
  cause : Option ErrCause
  deriving DecidableEq, Repr

/-- The normalized ("flattened") error built by `executeOnCluster`:
`{ message: error?.message ?? "", body: cause?.body ?? undefined,
status: cause?.status ?? undefined }`. -/
structure FlatError where
  message : String
  body : Option String
  status : Option Nat
  deriving DecidableEq, Repr

/-- Normalization of one node's error, as in the failure loop of
`executeOnCluster`. -/
def flattenNodeError (e : NodeError) : FlatError :=
  { message := e.message.getD ""
    body := e.cause.bind ErrCause.body
    status := e.cause.bind ErrCause.status }

/-- One entry of the thrown failure list: `{ node, error }`. -/
structure NodeFailure where
  node : String
  error : FlatError
  deriving DecidableEq, Repr

/-- The per-node settled outcomes, in node order.  `Promise.allSettled`
preserves the order of the `nodes.map` promises, and the operation closure of
node `index` either fulfills with `[node, result]` or rejects with
`[node, error]`. -/
def settledResults {T : Type} (nodes : List Client) (op : Client → Nat → Except NodeError T) :
    List (String × Except NodeError T) :=
  nodes.mapIdx fun index client => (client.id, op client index)

/-- The failure records accumulated by `executeOnCluster`: one per rejected
promise, in settled (= node) order, each flattened. -/
def clusterFailures {T : Type} (nodes : List Client) (op : Client → Nat → Except NodeError T) :
    List NodeFailure :=
  (settledResults nodes op).filterMap fun p =>
    match p.2 with
    | .error e => some { node := p.1, error := flattenNodeError e }
    | .ok _ => none

/-- The success pairs accumulated by `executeOnCluster`
(`Object.fromEntries(successes)` is kept as the association list in node
order). -/
def clusterSuccesses {T : Type} (nodes : List Client) (op : Client → Nat → Except NodeError T) :
    List (String × T) :=
  (settledResults nodes op).filterMap fun p =>
    match p.2 with
    | .ok t => some (p.1, t)
    | .error _ => none

/-- Embedding of `executeOnCluster` (cluster.ts, first variant, lines 11-62):
runs the operation for every node, collects successes and flattened failures,
throws the failure list when nonempty, otherwise returns the success map. -/
def executeOnCluster {T : Type} (nodes : List Client) (op : Client → Nat → Except NodeError T) :
    Except (List NodeFailure) (List (String × T)) :=
  let failures := clusterFailures nodes op
  if failures.length > 0 then .error failures else .ok (clusterSuccesses nodes op)

/-- Decidable test that one settled outcome is a rejection. -/
def isErrorOutcome {T : Type} (r : Except NodeError T) : Bool :=
  match r with
  | .error _ => true
  | .ok _ => false

/-- Number of rejecting nodes for a run. -/
def rejectingCount {T : Type} (nodes : List Client) (op : Client → Nat → Except NodeError T) : Nat :=
  ((settledResults nodes op).countP fun p => isErrorOutcome p.2)

/-! ## Plaintext response selection (`processPlaintextResponse`) -/

/-- Canonical-response selection strategy. -/
inductive Strategy where
  | first
  | random
  deriving DecidableEq, Repr

/-- Index chosen by the strategy: 0 for `first`, the drawn random index for
`random`. -/
def selectedIndex (strategy : Strategy) (rand : Nat) : Nat :=
  match strategy with
  | .first => 0
  | .random => rand

/-- Embedding of `processPlaintextResponse` (cluster.ts lines 239-269).
`values` is `Object.values(results)` in the map's iteration order.  `rand`
models the evaluated `Math.floor(Math.random() * values.length)`: it lies in
`[0, values.length)` when the list is nonempty and is `0` when it is empty
(`Math.random() * 0 = 0`); theorems carry that bound as a hypothesis.
`values.at(index)` for a nonnegative index is `values.get? index`. -/
def processPlaintextResponse {T : Type} (values : List T) (strategy : Strategy) (rand : Nat) :
    Except String T :=
  match values.get? (selectedIndex strategy rand) with
  | some v => .ok v
  | none => .error "Failed to select a canonical response."

/-! ## JSON-like values

The request/response bodies the pipeline walks are arbitrary JSON-like
structures.  `JVal` embeds them: objects are association lists in the
source's insertion order (JavaScript objects cannot carry duplicate keys;
functions below read the first occurrence), `undef` is the JavaScript value
`undefined`, and numbers are arbitrary-precision integers per the external
primitive's numeric contract.  `cipher` and `share` are the opaque artifacts
produced by the modelled external primitives and never occur in caller
input. -/

/-- Plaintext accepted by the external `encrypt` primitive after coercion:
a big integer or a string. -/
inductive Plain where
  | int (n : Int)
  | str (s : String)
  deriving DecidableEq, Repr

/-- JSON-like JavaScript value. -/
inductive JVal where
  | null
  | undef
  | bool (b : Bool)
  | int (n : Int)
  | str (s : String)
  | cipher (p : Plain)
  | share (i : Nat) (p : Plain)
  | arr (xs : List JVal)
  | obj (fs : List (String × JVal))

/-- Property access on an object: the value of the first field named `k`. -/
def lookupField (fs : List (String × JVal)) (k : String) : Option JVal :=
  match fs with
  | [] => none
  | (k1, v) :: rest => if k1 = k then some v else lookupField rest k

/-- JavaScript `delete o[k]`. -/
def objDelete (fs : List (String × JVal)) (k : String) : List (String × JVal) :=
  fs.filter fun p => p.1 ≠ k

/-- JavaScript `o[k] = v`: updates an existing property in place, otherwise
appends it. -/
def objSet (fs : List (String × JVal)) (k : String) (v : JVal) : List (String × JVal) :=
  match fs with
  | [] => [(k, v)]
  | p :: rest => if p.1 = k then (k, v) :: rest else p :: objSet rest k v

/-- JavaScript truthiness of a value (`null`, `undefined`, `false`, `0`, and
the empty string are falsy; every object is truthy). -/
def jsTruthy (v : JVal) : Bool :=
  match v with
  | .null => false
  | .undef => false
  | .bool b => b
  | .int n => n ≠ 0
  | .str s => s ≠ ""
  | _ => true

mutual

/-- Structural equality test on `JVal`. -/
def jeq : JVal → JVal → Bool
  | .null, .null => true
  | .undef, .undef => true
  | .bool a, .bool b => a = b
  | .int a, .int b => a = b
  | .str a, .str b => a = b
  | .cipher a, .cipher b => a = b
  | .share i a, .share j b => i = j ∧ a = b
  | .arr xs, .arr ys => jeqArr xs ys
  | .obj fs, .obj gs => jeqObj fs gs
  | _, _ => false

/-- Structural equality on element lists. -/
def jeqArr : List JVal → List JVal → Bool
  | [], [] => true
  | x :: xs, y :: ys => jeq x y && jeqArr xs ys
  | _, _ => false

/-- Structural equality on field lists. -/
def jeqObj : List (String × JVal) → List (String × JVal) → Bool
  | [], [] => true
  | (k, v) :: fs, (l, w) :: gs => (k = l && jeq v w) && jeqObj fs gs
  | _, _ => false

end

mutual

/-- Reflexivity of `jeq`. -/
def jeqRefl : ∀ a : JVal, jeq a a = true
  | .null => rfl
  | .undef => rfl
  | .bool b => by simp [jeq]
  | .int n => by simp [jeq]
  | .str s => by simp [jeq]
  | .cipher p => by simp [jeq]
  | .share i p => by simp [jeq]
  | .arr xs => jeqArrRefl xs
  | .obj fs => jeqObjRefl fs

/-- Reflexivity of `jeqArr`. -/
def jeqArrRefl : ∀ xs : List JVal, jeqArr xs xs = true
  | [] => rfl
  | x :: xs => by
      simp only [jeqArr, Bool.and_eq_true]
      exact ⟨jeqRefl x, jeqArrRefl xs⟩

/-- Reflexivity of `jeqObj`. -/
def jeqObjRefl : ∀ fs : List (String × JVal), jeqObj fs fs = true
  | [] => rfl
  | (k, v) :: fs => by
      simp only [jeqObj, Bool.and_eq_true]
      exact ⟨⟨by simp, jeqRefl v⟩, jeqObjRefl fs⟩

end

mutual

/-- Soundness of `jeq`. -/
def jeqSound : ∀ a b : JVal, jeq a b = true → a = b
  | .arr xs, b, h => by
      cases b <;> simp [jeq] at h ⊢ <;> exact jeqArrSound xs _ h
  | .obj fs, b, h => by
      cases b <;> simp [jeq] at h ⊢ <;> exact jeqObjSound fs _ h
  | .null, b, h => by cases b <;> simp [jeq] at h ⊢
  | .undef, b, h => by cases b <;> simp [jeq] at h ⊢
  | .bool a, b, h => by cases b <;> simp [jeq] at h ⊢ <;> exact h
  | .int a, b, h => by cases b <;> simp [jeq] at h ⊢ <;> exact h
  | .str a, b, h => by cases b <;> simp [jeq] at h ⊢ <;> exact h
  | .cipher a, b, h => by cases b <;> simp [jeq] at h ⊢ <;> exact h
  | .share i a, b, h => by cases b <;> simp [jeq] at h ⊢ <;> exact h

/-- Soundness of `jeqArr`. -/
def jeqArrSound : ∀ xs ys : List JVal, jeqArr xs ys = true → xs = ys
  | [], [], _ => rfl
  | [], _ :: _, h => by simp [jeqArr] at h
  | _ :: _, [], h => by simp [jeqArr] at h
  | x :: xs, y :: ys, h => by
      simp only [jeqArr, Bool.and_eq_true] at h
      rw [jeqSound x y h.1, jeqArrSound xs ys h.2]

/-- Soundness of `jeqObj`. -/
def jeqObjSound : ∀ fs gs : List (String × JVal), jeqObj fs gs = true → fs = gs
  | [], [], _ => rfl
  | [], _ :: _, h => by simp [jeqObj] at h
  | _ :: _, [], h => by simp [jeqObj] at h
  | (k, v) :: fs, (l, w) :: gs, h => by
      simp only [jeqObj, Bool.and_eq_true, decide_eq_true_eq] at h
      rw [h.1.1, jeqSound v w h.1.2, jeqObjSound fs gs h.2]

end

instance : DecidableEq JVal := fun a b =>
  if h : jeq a b = true then .isTrue (jeqSound a b h)
  else .isFalse fun e => h (by rw [e]; exact jeqRefl b)

/-! ## External secret-sharing primitive (modelled from the spec)

The cryptographic primitives live in the external `@nillion/blindfold`
package, outside this repository.  They are modelled here from the
specification's interface contract (section 6) and numeric semantics
(section 4.1). -/

/-- Modelled from the spec: a confidentiality key (single-party or
cluster-party key material), opaque to the core except for its configured
node count, which "must equal the number of configured cluster nodes". -/
structure Key where
  nodes : Nat
  deriving DecidableEq, Repr

/-- Modelled from the spec: the coercion the external primitive applies to a
value tagged for concealment.  Numeric values are kept as arbitrary-precision
integers and strings are kept as strings; "non-numeric, non-string concealed
values (booleans, objects, arrays) are coerced to their string
representation", which loses information. -/
def coercePlain (v : JVal) : Plain :=
  match v with
  | .int n => .int n
  | .str s => .str s
  | .bool b => .str (if b then "true" else "false")
  | .null => .str "null"
  | .undef => .str "undefined"
  | .arr _ => .str "[array]"
  | _ => .str "[object Object]"

/-- A revealed plaintext as a JSON value (big-integer numbers, strings). -/
def plainVal (p : Plain) : JVal :=
  match p with
  | .int n => .int n
  | .str s => .str s

/-- Modelled from the spec: `encrypt(key, plaintext) → ciphertext`.  The
opaque ciphertext artifact is modelled as the coerced plaintext tagged by the
`cipher` constructor (exactly the information the modelled `unify` needs to
decrypt it). -/
def encryptP (key : Key) (v : JVal) : Plain :=
  let _ := key
  coercePlain v

mutual

/-- One node's view of a split structure.  Modelled from the spec: the
external `split` operation returns "exactly N variants — one per configured
node — where each variant has every previously-ciphertext value replaced by
that node's share (the marker's key is conceptually replaced by a 'share' key
in the output; downstream structure mirrors input structure otherwise)". -/
def allotShare (i : Nat) : JVal → JVal
  | .arr xs => .arr (allotShareArr i xs)
  | .obj fs => .obj (allotShareObj i fs)
  | v => v

/-- Element-wise split over an array. -/
def allotShareArr (i : Nat) : List JVal → List JVal
  | [] => []
  | x :: xs => allotShare i x :: allotShareArr i xs

/-- Field-wise split over an object: a `"%allot"` field holding a ciphertext
becomes a `"%share"` field holding node `i`'s share. -/
def allotShareObj (i : Nat) : List (String × JVal) → List (String × JVal)
  | [] => []
  | (k, v) :: fs =>
      (match v with
       | .cipher p => if k = "%allot" then ("%share", JVal.share i p) else (k, .cipher p)
       | .arr ys => (k, .arr (allotShareArr i ys))
       | .obj gs => (k, .obj (allotShareObj i gs))
       | w => (k, w)) :: allotShareObj i fs

end

/-- Split of one object field: only the marker key with a ciphertext value is
replaced by the share field; everything else is split in place. -/
def allotEntry (i : Nat) (k : String) (v : JVal) : String × JVal :=
  match v with
  | .cipher p => if k = "%allot" then ("%share", .share i p) else (k, .cipher p)
  | v => (k, allotShare i v)

/-- Modelled from the spec: `split(key, structureWithCiphertexts)` returns
one variant per configured node. -/
def allot (n : Nat) (v : JVal) : List JVal :=
  (List.range n).map fun i => allotShare i v

mutual

/-- Modelled from the spec: the structural walk of `unify`, which recombines
"every share-tagged field across the provided documents (reconstructing the
secret via the underlying threshold/splitting scheme)" and decrypts it;
non-shared fields are taken as-is, "first-seen wins".  Each modelled share
identifies its ciphertext, so recombination decodes the share found in the
first document. -/
def unifyVal : JVal → JVal
  | .arr xs => .arr (unifyArr xs)
  | .obj fs => .obj (unifyObj fs)
  | v => v

/-- Element-wise recombination over an array. -/
def unifyArr : List JVal → List JVal
  | [] => []
  | x :: xs => unifyVal x :: unifyArr xs

/-- Field-wise recombination: a field whose value is an object bearing a
`"%share"` key with a share artifact collapses to the decrypted plaintext. -/
def unifyObj : List (String × JVal) → List (String × JVal)
  | [] => []
  | (k, v) :: fs => (k, unifyEntryVal v) :: unifyObj fs

/-- Recombination of one object field's value. -/
def unifyEntryVal : JVal → JVal
  | .obj gs =>
      match lookupField gs "%share" with
      | some (.share _ p) => plainVal p
      | _ => .obj (unifyObj gs)
  | .arr ys => .arr (unifyArr ys)
  | v => v

end

/-! ## Secret-sharing transform (`src/common/blindfold.ts`) -/

mutual

/-- Embedding of `conceal`'s inner `encryptDeep` (blindfold.ts lines
161-194): non-objects are returned unchanged, arrays recurse element-wise,
and each object entry is processed by `encryptEntry`. -/
def encryptDeep (key : Key) : JVal → JVal
  | .arr xs => .arr (encryptDeepArr key xs)
  | .obj fs => .obj (encryptDeepObj key fs)
  | v => v

/-- Array branch of `encryptDeep` (`Promise.all(value.map(encryptDeep))`). -/
def encryptDeepArr (key : Key) : List JVal → List JVal
  | [] => []
  | x :: xs => encryptDeep key x :: encryptDeepArr key xs

/-- Object branch of `encryptDeep`: every entry's value goes through the
entry logic, keys unchanged. -/
def encryptDeepObj (key : Key) : List (String × JVal) → List (String × JVal)
  | [] => []
  | (k, v) :: fs => (k, encryptEntry key v) :: encryptDeepObj key fs

/-- Entry logic of `encryptDeep`: if the entry's value is an object that has
`"%allot"` as a key (exact case), the whole value is replaced by
`{"%allot": encrypt(key, value["%allot"])}`; other objects and arrays
recurse; primitives are copied directly. -/
def encryptEntry (key : Key) : JVal → JVal
  | .obj gs =>
      match lookupField gs "%allot" with
      | some p => .obj [("%allot", .cipher (encryptP key p))]
      | none => .obj (encryptDeepObj key gs)
  | .arr ys => .arr (encryptDeepArr key ys)
  | v => v

end

/-- Embedding of `conceal` (blindfold.ts lines 150-205): encrypt the tagged
values in place, then split the encrypted structure into one share-bearing
document per node. -/
def conceal (key : Key) (data : JVal) : List JVal :=
  allot key.nodes (encryptDeep key data)

/-- Embedding of `reveal` (blindfold.ts lines 229-244): a single `unify` of
the provided share documents.  Callers never pass an empty list; the model
recombines from the first document ("first-seen wins" per the spec). -/
def reveal (key : Key) (shares : List JVal) : JVal :=
  let _ := key
  unifyVal (shares.headD (.obj []))

mutual

/-- The logical reading of a marked document (spec section 4.1): a field
whose value is an object carrying the `"%allot"` marker denotes the marker's
value; everything else is kept.  Sibling keys of a marker are dropped, as the
transform drops them. -/
def unmark : JVal → JVal
  | .arr xs => .arr (unmarkArr xs)
  | .obj fs => .obj (unmarkObj fs)
  | v => v

/-- Element-wise logical reading. -/
def unmarkArr : List JVal → List JVal
  | [] => []
  | x :: xs => unmark x :: unmarkArr xs

/-- Field-wise logical reading. -/
def unmarkObj : List (String × JVal) → List (String × JVal)
  | [] => []
  | (k, v) :: fs => (k, unmarkEntry v) :: unmarkObj fs

/-- Entry-level logical reading, mirroring `encryptEntry`. -/
def unmarkEntry : JVal → JVal
  | .obj gs =>
      match lookupField gs "%allot" with
      | some p => p
      | none => .obj (unmarkObj gs)
  | .arr ys => .arr (unmarkArr ys)
  | v => v

end

mutual

/-- A document is coercion-free when every concealed (entry-position) marker
value is an integer or a string — the exact carve-out of the known lossy
non-primitive string coercion — and it carries no pre-existing cipher or
share artifact. -/
def goodMarks : JVal → Bool
  | .arr xs => goodMarksArr xs
  | .obj fs => goodMarksObj fs
  | .cipher _ => false
  | .share _ _ => false
  | _ => true

/-- Element-wise coercion-freedom. -/
def goodMarksArr : List JVal → Bool
  | [] => true
  | x :: xs => goodMarks x && goodMarksArr xs

/-- Field-wise coercion-freedom. -/
def goodMarksObj : List (String × JVal) → Bool
  | [] => true
  | (_, v) :: fs => goodMarksEntry v && goodMarksObj fs

/-- Entry-level coercion-freedom: a marked value must be an integer or a
string. -/
def goodMarksEntry : JVal → Bool
  | .obj gs =>
      match lookupField gs "%allot" with
      | some (.int _) => true
      | some (.str _) => true
      | some _ => false
      | none => goodMarksObj gs
  | .arr ys => goodMarksArr ys
  | .cipher _ => false
  | .share _ _ => false
  | _ => true

end

mutual

/-- Every `"%allot"` field anywhere in the structure holds a ciphertext
(the property claimed of `encryptDeep`'s output: no marker-tagged value
reaches the split in plaintext). -/
def allAllotsCiphered : JVal → Bool
  | .arr xs => allAllotsCipheredArr xs
  | .obj fs => allAllotsCipheredObj fs
  | _ => true

/-- Element-wise check of `allAllotsCiphered`. -/
def allAllotsCipheredArr : List JVal → Bool
  | [] => true
  | x :: xs => allAllotsCiphered x && allAllotsCipheredArr xs

/-- Field-wise check of `allAllotsCiphered`. -/
def allAllotsCipheredObj : List (String × JVal) → Bool
  | [] => true
  | (k, v) :: fs =>
      (if k = "%allot" then
        match v with
        | .cipher _ => true
        | _ => false
      else allAllotsCiphered v) && allAllotsCipheredObj fs

end

mutual

/-- Every marker carried by an object sitting in entry position (the value
of a field of an enclosing object) holds a ciphertext.  Markers at the root
or carried by direct array elements are outside this check. -/
def entryAllotsCiphered : JVal → Bool
  | .arr xs => entryAllotsCipheredArr xs
  | .obj fs => entryAllotsCipheredObj fs
  | _ => true

/-- Element-wise check: array elements are not entry positions, so their own
markers are not checked, but their contents are. -/
def entryAllotsCipheredArr : List JVal → Bool
  | [] => true
  | x :: xs => entryAllotsCiphered x && entryAllotsCipheredArr xs

/-- Field-wise check of `entryAllotsCiphered`. -/
def entryAllotsCipheredObj : List (String × JVal) → Bool
  | [] => true
  | (_, v) :: fs => entryAllotsCipheredEntry v && entryAllotsCipheredObj fs

/-- Entry-level check: a marker-bearing object in entry position must hold a
ciphertext under its marker. -/
def entryAllotsCipheredEntry : JVal → Bool
  | .obj gs =>
      match lookupField gs "%allot" with
      | some (.cipher _) => true
      | some _ => false
      | none => entryAllotsCipheredObj gs
  | .arr ys => entryAllotsCipheredArr ys
  | _ => true

end

/-! ## Request preparer, first variant (`prepareRequest`, cluster.ts) -/

/-- ASCII lower-casing of a character (the range relevant to the
case-insensitive marker comparison `key.toLowerCase() === "%allot"`). -/
def asciiLower (c : Char) : Char :=
  if 'A' ≤ c ∧ c ≤ 'Z' then Char.ofNat (c.toNat + 32) else c

/-- ASCII `toLowerCase` on a string. -/
def lowerStr (s : String) : String := String.mk (s.data.map asciiLower)

/-- Numeral parse of a decimal digit string, accumulator form. -/
def strToNatAux : List Char → Nat → Option Nat
  | [], acc => some acc
  | c :: cs, acc =>
      if '0' ≤ c ∧ c ≤ '9' then strToNatAux cs (acc * 10 + (c.toNat - 48)) else none

/-- The `Number(part)`/`isNaN` test of the splice navigation: a nonempty
all-digit path part is an array index. -/
def strToNat (s : String) : Option Nat :=
  match s.data with
  | [] => none
  | l => strToNatAux l 0

/-- Decimal digits of a number, with structural fuel. -/
def natToStrAux : Nat → Nat → List Char
  | 0, _ => []
  | fuel + 1, n =>
      if n < 10 then [Char.ofNat (48 + n)]
      else natToStrAux fuel (n / 10) ++ [Char.ofNat (48 + n % 10)]

/-- Decimal rendering of an array index used as a path segment. -/
def natToStr (n : Nat) : String := String.mk (natToStrAux (n + 1) n)

mutual

/-- Array branch of `findAllotPathsAndValues` (cluster.ts lines 90-126):
walks the items with their index as path segment, recursing only into plain
objects (other items, arrays included, contribute nothing). -/
def findAllotArr (path : List String) (idx : Nat) : List JVal → List (List String × JVal)
  | [] => []
  | x :: xs =>
      (match x with
       | .obj fs => findAllotObj (path ++ [natToStr idx]) fs
       | _ => []) ++ findAllotArr path (idx + 1) xs

/-- Object branch of `findAllotPathsAndValues`: an entry whose key
lower-cases to `"%allot"` is recorded with its dot-notation path (modelled as
the list of segments the source joins with `"."`); plain-object and array
values recurse. -/
def findAllotObj (path : List String) : List (String × JVal) → List (List String × JVal)
  | [] => []
  | (k, v) :: fs =>
      (if lowerStr k = "%allot" then [(path ++ [k], v)]
       else
        match v with
        | .obj gs => findAllotObj (path ++ [k]) gs
        | .arr ys => findAllotArr (path ++ [k]) 0 ys
        | _ => []) ++ findAllotObj path fs

end

/-- Modelled from the spec: the node-share form of the external `encrypt`
used by `prepareRequest` — for a marked value it yields one share per node
configured in the key. -/
def encryptShares (key : Key) (v : JVal) : List JVal :=
  (List.range key.nodes).map fun i => JVal.share i (encryptP key v)

/-- Step 3 of `prepareRequest` (cluster.ts lines 167-181): map the encrypted
shares of one value positionally onto the node identities
(`sharesByNode[client.id] = encryptedShares[index]`); an out-of-range index
reads as JavaScript `undefined` — the source performs no length check. -/
def sharesByNodeFor (key : Key) (clients : List Client) (v : JVal) : List (String × JVal) :=
  clients.mapIdx fun i c => (c.id, ((encryptShares key v).get? i).getD .undef)

/-- Splice step of `prepareRequest` (cluster.ts lines 194-223): navigate the
path parts (numeric parts index arrays, others index objects), then delete
the marker key on the parent and set `"%share"` to the node's share.
Navigation through a missing property is the JavaScript `TypeError`. -/
def spliceAt : JVal → List String → String → JVal → Except String JVal
  | v, [], allotKey, shareVal =>
      match v with
      | .obj fs => .ok (.obj (objSet (objDelete fs allotKey) "%share" shareVal))
      | _ => .error "TypeError"
  | v, p :: rest, allotKey, shareVal =>
      match v with
      | .obj fs =>
          match lookupField fs p with
          | some child =>
              (spliceAt child rest allotKey shareVal).map fun c2 =>
                .obj (objSet fs p c2)
          | none => .error "TypeError"
      | .arr xs =>
          match strToNat p with
          | some i =>
              match xs.get? i with
              | some child =>
                  (spliceAt child rest allotKey shareVal).map fun c2 =>
                    .arr (xs.set i c2)
              | none => .error "TypeError"
          | none => .error "TypeError"
      | _ => .error "TypeError"

/-- Association lookup keyed by a path, mirroring `sharesMap.get(path)`. -/
def lookupPath {β : Type} (m : List (List String × β)) (path : List String) : Option β :=
  match m with
  | [] => none
  | (p, b) :: rest => if p = path then some b else lookupPath rest path

/-- The error message of the no-key guard (the source interpolates the
number of markers into it; the model keeps the fixed text). -/
def noKeyMsg : String := "No key but %allot(s) detected in data"

/-- Embedding of `prepareRequest` (cluster.ts lines 149-234).  The body is an
object; `structuredClone` is value-level identity here (its aliasing facet is
modelled separately for the copy-independence claims). -/
def prepareRequestJ (key : Option Key) (clients : List Client)
    (body : List (String × JVal)) : Except String (List (String × JVal)) :=
  let allots := findAllotObj [] body
  match key with
  | none =>
      if allots.isEmpty then .ok (clients.map fun c => (c.id, .obj body))
      else .error noKeyMsg
  | some k =>
      let sharesMap := allots.map fun a => (a.1, sharesByNodeFor k clients a.2)
      clients.mapM fun c =>
        (allots.foldlM (fun acc (a : List String × JVal) =>
          match lookupPath sharesMap a.1 with
          | some sbn =>
              match a.1.getLast? with
              | some allotKey =>
                  spliceAt acc a.1.dropLast allotKey ((lookupField sbn c.id).getD .undef)
              | none => .error "Expected an allot key in the path parts"
          | none => .ok acc) (JVal.obj body)).map fun b => (c.id, b)

/-! ## Request preparers, second variant (`prepareConcealedRequest`,
`preparePlaintextRequest`, cluster.ts) and the `createData` prepare step -/

/-- A request body of shape `{ data: documents[], ...rest }`. -/
structure DataBody where
  data : List JVal
  rest : List (String × JVal)

/-- Embedding of `prepareConcealedRequest` (cluster.ts lines 378-411):
conceal every document, guard that the first concealed document's share
count equals the node count, then transpose to a node-major map (a missing
share reads as JavaScript `undefined`). -/
def prepareConcealedRequest (key : Key) (clients : List Client) (body : DataBody) :
    Except String (List (String × DataBody)) :=
  let concealedDocs := body.data.map (conceal key)
  if (concealedDocs.head?.map List.length) = some clients.length then
    .ok (clients.mapIdx fun i c =>
      (c.id, { data := concealedDocs.map fun shares => (shares.get? i).getD .undef
               rest := body.rest }))
  else .error "Concealed shares count must match node count."

/-- Embedding of `preparePlaintextRequest` (cluster.ts lines 416-427) at the
value level: each node receives the spread copy `{ ...body }`, whose value is
the body itself (the aliasing facet is modelled separately). -/
def preparePlaintextRequestT {T : Type} (clients : List Client) (body : T) :
    List (String × T) :=
  clients.map fun c => (c.id, body)

/-- Prepare step of `SecretVaultUserClient.createData` (user.ts lines
132-137): concealed preparation when a key is configured, plaintext
replication otherwise. -/
def userCreateDataPrepare (key : Option Key) (clients : List Client) (body : DataBody) :
    Except String (List (String × DataBody)) :=
  match key with
  | some k => prepareConcealedRequest k clients body
  | none => .ok (preparePlaintextRequestT clients body)

/-! ## Concealed list response processing -/

/-- The grouping key of a document: `doc._id`, kept only when truthy. -/
def docId (doc : JVal) : Option JVal :=
  match doc with
  | .obj fs =>
      match lookupField fs "_id" with
      | some v => if jsTruthy v then some v else none
      | none => none
  | _ => none

/-- JavaScript `Map.get`. -/
def mapGet {κ β : Type} [DecidableEq κ] (acc : List (κ × β)) (k : κ) : Option β :=
  match acc with
  | [] => none
  | p :: rest => if p.1 = k then some p.2 else mapGet rest k

/-- JavaScript `Map.set`: updates an existing key in place (keeping its
insertion position), otherwise appends. -/
def mapSet {κ β : Type} [DecidableEq κ] (acc : List (κ × β)) (k : κ) (v : β) : List (κ × β) :=
  match acc with
  | [] => [(k, v)]
  | p :: rest => if p.1 = k then (k, v) :: rest else p :: mapSet rest k v

/-- Grouping step of `processConcealedListResponse` (cluster.ts lines
295-304): push the document onto its id's group when the id is truthy,
skip it otherwise. -/
def groupStep (acc : List (JVal × List JVal)) (doc : JVal) : List (JVal × List JVal) :=
  match docId doc with
  | some id => mapSet acc id ((mapGet acc id).getD [] ++ [doc])
  | none => acc

/-- The grouped shares (`allShares.reduce(..., new Map())`). -/
def groupShares (docs : List JVal) : List (JVal × List JVal) :=
  docs.foldl groupStep []

/-- Embedding of `processConcealedListResponse` (cluster.ts lines 274-324):
flatten every node's document array, group by document id, and reveal each
group.  A node's response is modelled by its `data` array. -/
def processConcealedListResponse (key : Key) (resultsByNode : List (String × List JVal)) :
    List JVal :=
  let allShares := (resultsByNode.map Prod.snd).flatten
  (groupShares allShares).map fun g => reveal key g.2

/-- First-seen-order deduplication (the insertion order of the JavaScript
`Map`). -/
def dedupFirst (l : List JVal) : List JVal :=
  l.foldl (fun acc k => if k ∈ acc then acc else acc ++ [k]) []

/-- Generic error test on `Except`. -/
def isErr {ε α : Type} (r : Except ε α) : Bool :=
  match r with
  | .error _ => true
  | .ok _ => false

/-! ## Reference-level values

Copy independence is about object identity, which the pure `JVal` view
cannot express.  `RVal` is the same JSON-like data with every object and
array carrying the address of its underlying mutable JavaScript object;
copies that share an address alias the same object, so a mutation through
one is visible through the other.  `structuredClone` allocates fresh
addresses for the whole tree; the spread `{ ...body }` allocates a fresh
address for the root only and keeps the children's addresses. -/

/-- A primitive (immutable) JavaScript value. -/
inductive Prim where
  | null
  | bool (b : Bool)
  | int (n : Int)
  | str (s : String)
  deriving DecidableEq, Repr

/-- A JavaScript value with object identity. -/
inductive RVal where
  | prim (p : Prim)
  | robj (addr : Nat) (fs : List (String × RVal))
  | rarr (addr : Nat) (xs : List RVal)

mutual

/-- The addresses of every object and array in a value. -/
def addrsR : RVal → List Nat
  | .prim _ => []
  | .robj a fs => a :: addrsRObj fs
  | .rarr a xs => a :: addrsRArr xs

/-- Addresses reachable through an element list. -/
def addrsRArr : List RVal → List Nat
  | [] => []
  | x :: xs => addrsR x ++ addrsRArr xs

/-- Addresses reachable through a field list. -/
def addrsRObj : List (String × RVal) → List Nat
  | [] => []
  | (_, v) :: fs => addrsR v ++ addrsRObj fs

end

mutual

/-- `structuredClone`: a structure-preserving copy in which every object and
array receives a fresh address, drawn from a counter `c` of
not-yet-allocated addresses; returns the copy and the next free address. -/
def cloneR (c : Nat) : RVal → RVal × Nat
  | .prim p => (.prim p, c)
  | .robj _ fs =>
      let r := cloneRObj (c + 1) fs
      (.robj c r.1, r.2)
  | .rarr _ xs =>
      let r := cloneRArr (c + 1) xs
      (.rarr c r.1, r.2)

/-- Clone of an element list, threading the allocation counter. -/
def cloneRArr (c : Nat) : List RVal → List RVal × Nat
  | [] => ([], c)
  | x :: xs =>
      let r := cloneR c x
      let rs := cloneRArr r.2 xs
      (r.1 :: rs.1, rs.2)

/-- Clone of a field list, threading the allocation counter. -/
def cloneRObj (c : Nat) : List (String × RVal) → List (String × RVal) × Nat
  | [] => ([], c)
  | (k, v) :: fs =>
      let r := cloneR c v
      let rs := cloneRObj r.2 fs
      ((k, r.1) :: rs.1, rs.2)

end

mutual

/-- Forgetful map from identity-carrying values to pure values. -/
def eraseR : RVal → JVal
  | .prim .null => .null
  | .prim (.bool b) => .bool b
  | .prim (.int n) => .int n
  | .prim (.str s) => .str s
  | .robj _ fs => .obj (eraseRObj fs)
  | .rarr _ xs => .arr (eraseRArr xs)

/-- Forgetful map on element lists. -/
def eraseRArr : List RVal → List JVal
  | [] => []
  | x :: xs => eraseR x :: eraseRArr xs

/-- Forgetful map on field lists. -/
def eraseRObj : List (String × RVal) → List (String × JVal)
  | [] => []
  | (k, v) :: fs => (k, eraseR v) :: eraseRObj fs

end

/-- JavaScript `o[k] = v` on a field list with object identity. -/
def objSetR (fs : List (String × RVal)) (k : String) (v : RVal) : List (String × RVal) :=
  match fs with
  | [] => [(k, v)]
  | p :: rest => if p.1 = k then (k, v) :: rest else p :: objSetR rest k v

mutual

/-- The effect, on a value, of the mutation `o.k = w` performed on the
object whose address is `target`: every occurrence of that object (however
aliased) shows the updated field. -/
def mutateR (target : Nat) (k : String) (w : RVal) : RVal → RVal
  | .prim p => .prim p
  | .robj a fs =>
      let fs1 := mutateRObj target k w fs
      .robj a (if a = target then objSetR fs1 k w else fs1)
  | .rarr a xs => .rarr a (mutateRArr target k w xs)

/-- Mutation viewed through an element list. -/
def mutateRArr (target : Nat) (k : String) (w : RVal) : List RVal → List RVal
  | [] => []
  | x :: xs => mutateR target k w x :: mutateRArr target k w xs

/-- Mutation viewed through a field list. -/
def mutateRObj (target : Nat) (k : String) (w : RVal) : List (String × RVal) → List (String × RVal)
  | [] => []
  | (k1, v) :: fs => (k1, mutateR target k w v) :: mutateRObj target k w fs

end

/-- Read of a primitive at a field path, used to observe a value. -/
def readPathR : RVal → List String → Option Prim
  | .prim p, [] => some p
  | .prim _, _ :: _ => none
  | .robj _ _, [] => none
  | .robj _ fs, k :: rest =>
      match fs.find? (fun q => q.1 = k) with
      | some q => readPathR q.2 rest
      | none => none
  | .rarr _ _, _ => none

/-- Spreading an array into an object enumerates its indices as keys. -/
def spreadArrFields (i : Nat) : List RVal → List (String × RVal)
  | [] => []
  | x :: xs => (toString i, x) :: spreadArrFields (i + 1) xs

/-- The spread copy `{ ...body }` of `preparePlaintextRequest`: a fresh root
object holding the same (shared) children. -/
def spreadCopyR (c : Nat) (v : RVal) : RVal × Nat :=
  match v with
  | .robj _ fs => (.robj c fs, c + 1)
  | .rarr _ xs => (.robj c (spreadArrFields 0 xs), c + 1)
  | .prim p =>
      let _ := p
      (.robj c [], c + 1)

/-- Reference-level `preparePlaintextRequest` (cluster.ts lines 416-427):
one spread copy of the body per node, threading the allocator. -/
def preparePlaintextRequestR (clients : List Client) (body : RVal) (c : Nat) :
    List (String × RVal) × Nat :=
  match clients with
  | [] => ([], c)
  | cl :: rest =>
      let r := spreadCopyR c body
      let rs := preparePlaintextRequestR rest body r.2
      ((cl.id, r.1) :: rs.1, rs.2)

/-- Reference-level no-key path of `prepareRequest` (cluster.ts lines
184-230 with no key configured): one `structuredClone` of the body per node,
threading the allocator. -/
def prepareRequestNoKeyR (clients : List Client) (body : RVal) (c : Nat) :
    List (String × RVal) × Nat :=
  match clients with
  | [] => ([], c)
  | cl :: rest =>
      let r := cloneR c body
      let rs := prepareRequestNoKeyR rest body r.2
      ((cl.id, r.1) :: rs.1, rs.2)

end SecretVaults

namespace SecretVaults

/-- The failure list has exactly one record per rejecting node. -/
theorem clusterFailures_length {T : Type}
    (nodes : List Client) (op : Client → Nat → Except NodeError T) :
    (clusterFailures nodes op).length = rejectingCount nodes op := by
  unfold rejectingCount clusterFailures
  induction settledResults nodes op with
  | nil => simp
  | cons p rest ih =>
    simp only [isErrorOutcome] at ih ⊢
    cases hp : p.2 with
    | error e => simp [List.countP_cons, List.filterMap_cons, hp, ih]
    | ok t => simp [List.countP_cons, List.filterMap_cons, hp, ih]

/-! ### C1 -/

/-- C1: if at least one node's operation rejects during `executeOnCluster`,
the whole call rejects; the thrown value has exactly one
`{node identity, normalized error}` record per rejecting node (not one per
cluster node), each record carrying the underlying error's message (defaulted
to the empty string when absent) and, when present on its cause, the HTTP
status and response body; and no successful node's result appears in the
rejection. -/
theorem executeOnCluster_all_or_nothing {T : Type}
    (nodes : List Client) (op : Client → Nat → Except NodeError T)
    (h : 0 < rejectingCount nodes op) :
    executeOnCluster nodes op = .error (clusterFailures nodes op) ∧
    (clusterFailures nodes op).length = rejectingCount nodes op ∧
    (∀ f ∈ clusterFailures nodes op, ∃ p ∈ settledResults nodes op, ∃ e : NodeError,
      p.2 = .error e ∧ f = { node := p.1, error := flattenNodeError e }) := by
  refine ⟨?_, ?_, ?_⟩
  · unfold executeOnCluster
    have hlen : 0 < (clusterFailures nodes op).length := by
      rw [clusterFailures_length]
      exact h
    simp only [gt_iff_lt, hlen, if_pos]
  · exact clusterFailures_length nodes op
  · intro f hf
    unfold clusterFailures at hf
    rw [List.mem_filterMap] at hf
    obtain ⟨p, hp, hmatch⟩ := hf
    refine ⟨p, hp, ?_⟩
    cases he : p.2 with
    | error e =>
      refine ⟨e, rfl, ?_⟩
      rw [he] at hmatch
      simpa using hmatch.symm
    | ok t =>
      rw [he] at hmatch
      simp at hmatch

/-- Concrete run for C1: two nodes, the second rejecting with a message and a
cause carrying HTTP status 500 and a body; the call rejects with exactly one
failure record, for the rejecting node. -/
theorem executeOnCluster_all_or_nothing_witness :
    0 < rejectingCount [⟨"node-1"⟩, ⟨"node-2"⟩]
        (fun c _ => if c.id = "node-1" then Except.ok "success"
          else Except.error ⟨some "Node 2 failed", some ⟨some 500, some "bad"⟩⟩) ∧
    executeOnCluster [⟨"node-1"⟩, ⟨"node-2"⟩]
        (fun c _ => if c.id = "node-1" then Except.ok "success"
          else Except.error ⟨some "Node 2 failed", some ⟨some 500, some "bad"⟩⟩) =
      .error [{ node := "node-2",
                error := { message := "Node 2 failed", body := some "bad", status := some 500 } }] := by
  constructor
  · decide
  · have h := executeOnCluster_all_or_nothing [⟨"node-1"⟩, ⟨"node-2"⟩]
      (fun c _ => if c.id = "node-1" then Except.ok "success"
        else Except.error ⟨some "Node 2 failed", some ⟨some 500, some "bad"⟩⟩) (by decide)
    rw [h.1]
    rfl

/-! ### C8 -/

/-- C8: `processPlaintextResponse` fails with the error
"Failed to select a canonical response." exactly when the results map is
empty; on a nonempty map, strategy `first` deterministically returns the first
node's value (a fixed function of the input, hence the same value on every
repeated call), and strategy `random` returns a value present among the map's
values. -/
theorem processPlaintextResponse_spec {T : Type}
    (values : List T) (rand : Nat)
    (hr : rand < values.length ∨ (values = [] ∧ rand = 0)) :
    (∀ s : Strategy, processPlaintextResponse values s rand =
        .error "Failed to select a canonical response." ↔ values = []) ∧
    (∀ h : values ≠ [], processPlaintextResponse values .first rand = .ok (values.head h)) ∧
    (∀ v : T, processPlaintextResponse values .random rand = .ok v → v ∈ values) := by
  refine ⟨?_, ?_, ?_⟩
  · intro s
    constructor
    · intro hsel
      by_contra hne
      unfold processPlaintextResponse at hsel
      cases s with
      | first =>
        have hget : values.get? (selectedIndex .first rand) = some (values.head hne) := by
          cases values with
          | nil => exact absurd rfl hne
          | cons a l => rfl
        rw [hget] at hsel
        simp at hsel
      | random =>
        have hbound : rand < values.length := by
          rcases hr with hlt | ⟨hnil, _⟩
          · exact hlt
          · exact absurd hnil hne
        cases hg : values.get? (selectedIndex .random rand) with
        | none =>
          have hle := List.get?_eq_none.mp hg
          simp [selectedIndex] at hle
          omega
        | some w =>
          rw [hg] at hsel
          simp at hsel
    · intro hempty
      subst hempty
      cases s <;> simp [processPlaintextResponse, selectedIndex]
  · intro h
    unfold processPlaintextResponse
    cases values with
    | nil => exact absurd rfl h
    | cons a l => rfl
  · intro v hv
    unfold processPlaintextResponse at hv
    cases hg : values.get? (selectedIndex .random rand) with
    | none => rw [hg] at hv; simp at hv
    | some w =>
      rw [hg] at hv
      simp at hv
      subst hv
      exact List.get?_mem hg

/-- Concrete run for C8: a three-entry map: `first` picks the first node's
value, `random` at index 2 picks a member, and the empty map errors. -/
theorem processPlaintextResponse_spec_witness :
    (processPlaintextResponse ["a", "b", "c"] .first 2 = .ok "a") ∧
    (processPlaintextResponse ["a", "b", "c"] .random 2 = .ok "c") ∧
    (processPlaintextResponse ([] : List String) .first 0 =
      .error "Failed to select a canonical response.") := by
  have h3 := processPlaintextResponse_spec ["a", "b", "c"] 2 (Or.inl (by decide))
  have h0 := processPlaintextResponse_spec ([] : List String) 0 (Or.inr ⟨rfl, rfl⟩)
  refine ⟨?_, ?_, ?_⟩
  · exact h3.2.1 (by decide)
  · rfl
  · exact ((h0.1 Strategy.first).mpr rfl)

/-! ### C10 -/

/-- C10: with an empty `data` array there is nothing to conceal, yet
`prepareConcealedRequest` always rejects with
"Concealed shares count must match node count.", because the guard compares
the share count of the (non-existent) first concealed document — JavaScript
`undefined` — against the client count; and in general the guard consults
only the first document's share count.  (This holds for every client list,
in particular every non-empty one.) -/
theorem prepareConcealedRequest_empty_data_rejects
    (key : Key) (clients : List Client) :
    (∀ rest : List (String × JVal),
      prepareConcealedRequest key clients ⟨[], rest⟩ =
        .error "Concealed shares count must match node count.") ∧
    (∀ body : DataBody,
      isErr (prepareConcealedRequest key clients body) =
        !decide (((body.data.map (conceal key)).head?.map List.length) =
          some clients.length)) := by
  constructor
  · intro rest
    simp [prepareConcealedRequest]
  · intro body
    unfold prepareConcealedRequest
    by_cases h : ((body.data.map (conceal key)).head?.map List.length) = some clients.length
    · rw [if_pos h, decide_eq_true h]
      simp [isErr]
    · rw [if_neg h, decide_eq_false h]
      simp [isErr]

/-! ### C5 -/

/-- C5 counterexample: a body whose document carries the `"%allot"` marker,
prepared by `SecretVaultUserClient.createData` with no key configured, is
accepted without error and replicated verbatim (marker and plaintext intact)
to every node: the no-key path goes through `preparePlaintextRequest`, which
performs no marker scan. -/
theorem createData_no_key_marker_leak :
    userCreateDataPrepare none [⟨"node-1"⟩, ⟨"node-2"⟩]
        ⟨[.obj [("secret", .obj [("%allot", .str "s")])]], [("collection", .str "c1")]⟩ =
      .ok [("node-1", ⟨[.obj [("secret", .obj [("%allot", .str "s")])]], [("collection", .str "c1")]⟩),
           ("node-2", ⟨[.obj [("secret", .obj [("%allot", .str "s")])]], [("collection", .str "c1")]⟩)] ∧
    findAllotObj [] [("secret", JVal.obj [("%allot", .str "s")])] =
      [(["secret", "%allot"], .str "s")] := by
  exact ⟨rfl, by simp [findAllotObj, lowerStr, asciiLower]⟩

/-- C5 amended: `prepareRequest` (the preparer that scans for markers) does
raise the fatal no-key error before any network call whenever a marker is
present and no key is configured; but the `createData` path of the user
client with no key configured uses `preparePlaintextRequest`, which performs
no marker scan and hands the marked body unchanged (in plaintext) to every
node. -/
theorem prepareRequest_no_key_guard :
    (∀ (clients : List Client) (body : List (String × JVal)),
      findAllotObj [] body ≠ [] →
      prepareRequestJ none clients body = .error noKeyMsg) ∧
    (∀ (clients : List Client) (body : DataBody),
      userCreateDataPrepare none clients body = .ok (preparePlaintextRequestT clients body) ∧
      ∀ p ∈ preparePlaintextRequestT clients body, p.2 = body) := by
  constructor
  · intro clients body h
    unfold prepareRequestJ
    simp only [List.isEmpty_iff]
    rw [if_neg h]
  · intro clients body
    refine ⟨rfl, ?_⟩
    intro p hp
    unfold preparePlaintextRequestT at hp
    rw [List.mem_map] at hp
    obtain ⟨c, _, hc⟩ := hp
    rw [← hc]

/-- Concrete run for the amended C5: a marked one-field body with no key
yields the fatal error from `prepareRequest`. -/
theorem prepareRequest_no_key_guard_witness :
    findAllotObj [] [("secret", JVal.obj [("%allot", .str "s")])] ≠ [] ∧
    prepareRequestJ none [⟨"node-1"⟩] [("secret", JVal.obj [("%allot", .str "s")])] =
      .error noKeyMsg := by
  have hne : findAllotObj [] [("secret", JVal.obj [("%allot", .str "s")])] ≠ [] := by
    simp [findAllotObj, lowerStr, asciiLower]
  exact ⟨hne, prepareRequest_no_key_guard.1 [⟨"node-1"⟩] _ hne⟩

/-! ### C4 -/

/-- C4 counterexample: a key configured for one node used with two clients —
the share count (1) differs from the node count (2), yet `prepareRequest`
raises no error: it silently maps the second node's share to JavaScript
`undefined`, producing a share-missing per-node map. -/
theorem prepareRequest_share_mismatch_silent :
    (Key.mk 1).nodes ≠ ([⟨"node-1"⟩, ⟨"node-2"⟩] : List Client).length ∧
    prepareRequestJ (some ⟨1⟩) [⟨"node-1"⟩, ⟨"node-2"⟩]
        [("secret", .obj [("%allot", .str "s")])] =
      .ok [("node-1", .obj [("secret", .obj [("%share", .share 0 (.str "s"))])]),
           ("node-2", .obj [("secret", .obj [("%share", .undef)])])] := by
  refine ⟨by decide, ?_⟩
  have h1 : findAllotObj [] [("secret", JVal.obj [("%allot", .str "s")])] =
      [(["secret", "%allot"], .str "s")] := by
    simp [findAllotObj, lowerStr, asciiLower]
  have h2 : sharesByNodeFor ⟨1⟩ [⟨"node-1"⟩, ⟨"node-2"⟩] (.str "s") =
      [("node-1", .share 0 (.str "s")), ("node-2", .undef)] := by
    simp [sharesByNodeFor, encryptShares, encryptP, coercePlain, List.mapIdx,
      List.mapIdx.go, List.range, List.range.loop]
  have h3 : ∀ w : JVal, spliceAt (.obj [("secret", .obj [("%allot", .str "s")])])
      ["secret"] "%allot" w = .ok (.obj [("secret", .obj [("%share", w)])]) := by
    intro w
    simp [spliceAt, lookupField, objSet, objDelete, List.filter, Except.map]
  simp only [prepareRequestJ, h1]
  simp only [lookupPath, List.foldlM, h2, List.mapM, List.mapM.loop]
  norm_num only
  simp only [List.getLast?, List.getLast, List.dropLast, h3, lookupField]
  rfl

/-- Index lookup through `mapIdx`. -/
theorem get?_mapIdx {α β : Type} (f : Nat → α → β) :
    ∀ (l : List α) (i : Nat), (l.mapIdx f).get? i = (l.get? i).map (f i) := by
  intro l
  induction l using List.reverseRecOn with
  | nil => intro i; simp
  | append_singleton xs x ih =>
    intro i
    rw [List.mapIdx_append_one]
    by_cases h : i < xs.length
    · rw [List.get?_append, List.get?_append, ih]
      · exact h
      · simpa using h
    · by_cases he : i = xs.length
      · subst he
        simp [List.get?_append_right, List.get?_concat_length]
      · have hgt : xs.length < i := by omega
        have hge1 : xs.length ≤ i := le_of_lt hgt
        rw [List.get?_append_right (by simpa using hge1),
            List.get?_append_right (by omega)]
        have h1 : (xs.mapIdx f).length = xs.length := by simp
        rw [h1]
        have h2 : xs.length + 1 ≤ i := hgt
        rw [List.get?_eq_none.mpr (by simp; omega), List.get?_eq_none.mpr (by simp; omega)]
        rfl

/-- C4 amended: `conceal` always returns exactly N variants, N the key's
node count; `prepareConcealedRequest` raises the fatal share-count error,
rather than a partial map, whenever the first concealed document's share
count differs from the node count (so whenever key node count ≠ cluster
size and there is data); but `prepareRequest` raises no such error — its
share-mapping step assigns JavaScript `undefined` to every node whose index
is beyond the key's share count. -/
theorem conceal_share_cardinality :
    (∀ (key : Key) (d : JVal), (conceal key d).length = key.nodes) ∧
    (∀ (key : Key) (clients : List Client) (body : DataBody),
      body.data ≠ [] → key.nodes ≠ clients.length →
      prepareConcealedRequest key clients body =
        .error "Concealed shares count must match node count.") ∧
    (∀ (key : Key) (clients : List Client) (v : JVal) (i : Nat) (c : Client),
      clients.get? i = some c → key.nodes ≤ i →
      (sharesByNodeFor key clients v).get? i = some (c.id, .undef)) := by
  refine ⟨?_, ?_, ?_⟩
  · intro key d
    unfold conceal allot
    simp
  · intro key clients body hne hmm
    unfold prepareConcealedRequest
    cases hd : body.data with
    | nil => exact absurd hd hne
    | cons d ds =>
      have hlen : (conceal key d).length = key.nodes := by
        unfold conceal allot; simp
      have hcond : ¬ (((d :: ds).map (conceal key)).head?.map List.length =
          some clients.length) := by
        simpa [hlen] using hmm
      rw [if_neg hcond]
  · intro key clients v i c hc hle
    unfold sharesByNodeFor
    rw [get?_mapIdx, hc]
    have hnone : (encryptShares key v).get? i = none := by
      apply List.get?_eq_none.mpr
      unfold encryptShares
      simpa using hle
    rw [List.get?_eq_getElem?] at hnone
    simp [hnone]

/-- Concrete run for the amended C4: one-node key, two clients — `conceal`
yields one variant, `prepareConcealedRequest` rejects, and `prepareRequest`'s
share map gives node 2 `undefined`. -/
theorem conceal_share_cardinality_witness :
    (conceal ⟨1⟩ (.obj [("a", .int 1)])).length = (1 : Nat) ∧
    prepareConcealedRequest ⟨1⟩ [⟨"node-1"⟩, ⟨"node-2"⟩]
        ⟨[.obj [("a", .obj [("%allot", .int 1)])]], []⟩ =
      .error "Concealed shares count must match node count." ∧
    (sharesByNodeFor ⟨1⟩ [⟨"node-1"⟩, ⟨"node-2"⟩] (.str "s")).get? 1 =
      some ("node-2", .undef) := by
  refine ⟨conceal_share_cardinality.1 ⟨1⟩ _, ?_, ?_⟩
  · exact conceal_share_cardinality.2.1 ⟨1⟩ _ _ (by decide) (by decide)
  · exact conceal_share_cardinality.2.2 ⟨1⟩ _ (.str "s") 1 ⟨"node-2"⟩ rfl (by decide)

/-! ### C3 -/

/-- Keys are unchanged and values go through the entry logic, so field
lookup commutes with the object branch of `encryptDeep`. -/
theorem lookup_encryptDeepObj (key : Key) :
    ∀ (gs : List (String × JVal)) (k : String),
      lookupField (encryptDeepObj key gs) k = (lookupField gs k).map (encryptEntry key) := by
  intro gs
  induction gs with
  | nil => intro k; simp [encryptDeepObj, lookupField]
  | cons p rest ih =>
    intro k
    obtain ⟨k1, v⟩ := p
    by_cases h : k1 = k
    · subst h
      simp [encryptDeepObj, lookupField]
    · simp [encryptDeepObj, lookupField, h, ih]

mutual

/-- Values produced by `encryptDeep` have every entry-position marker
encrypted. -/
theorem entryACDeep (key : Key) : ∀ v : JVal, entryAllotsCiphered (encryptDeep key v) = true
  | .arr xs => by
      simp only [encryptDeep, entryAllotsCiphered]
      exact entryACArr key xs
  | .obj fs => by
      simp only [encryptDeep, entryAllotsCiphered]
      exact entryACObjs key fs
  | .null => rfl
  | .undef => rfl
  | .bool _ => rfl
  | .int _ => rfl
  | .str _ => rfl
  | .cipher _ => rfl
  | .share _ _ => rfl

/-- Element lists produced by `encryptDeepArr` pass the entry-marker
check. -/
theorem entryACArr (key : Key) : ∀ xs : List JVal,
    entryAllotsCipheredArr (encryptDeepArr key xs) = true
  | [] => rfl
  | x :: xs => by
      simp only [encryptDeepArr, entryAllotsCipheredArr, Bool.and_eq_true]
      exact ⟨entryACDeep key x, entryACArr key xs⟩

/-- Field lists produced by `encryptDeepObj` pass the entry-marker check. -/
theorem entryACObjs (key : Key) : ∀ fs : List (String × JVal),
    entryAllotsCipheredObj (encryptDeepObj key fs) = true
  | [] => rfl
  | (k, v) :: fs => by
      simp only [encryptDeepObj, entryAllotsCipheredObj, Bool.and_eq_true]
      exact ⟨entryACEnt key v, entryACObjs key fs⟩

/-- Entry values produced by `encryptEntry` pass the entry-marker check. -/
theorem entryACEnt (key : Key) : ∀ v : JVal,
    entryAllotsCipheredEntry (encryptEntry key v) = true
  | .obj gs => by
      cases h : lookupField gs "%allot" with
      | some p =>
          simp [encryptEntry, h, entryAllotsCipheredEntry, lookupField]
      | none =>
          have hl := lookup_encryptDeepObj key gs "%allot"
          rw [h] at hl
          simp only [encryptEntry, h]
          simp only [entryAllotsCipheredEntry, hl, Option.map_none]
          exact entryACObjs key gs
  | .arr ys => by
      simp only [encryptEntry, entryAllotsCipheredEntry]
      exact entryACArr key ys
  | .null => rfl
  | .undef => rfl
  | .bool _ => rfl
  | .int _ => rfl
  | .str _ => rfl
  | .cipher _ => rfl
  | .share _ _ => rfl

end

/-- C3 counterexample: `encryptDeep` leaves marker-tagged values in
plaintext when the marker-bearing object is a direct array element, and when
the marker sits at the root of the document: both reach the split operation
unencrypted.  (The formalized claim — every `"%allot"` value in
`encryptDeep`'s output is a ciphertext — is `allAllotsCiphered ∘ encryptDeep
= true`; it fails on this input.) -/
theorem encryptDeep_misses_root_and_array_markers :
    allAllotsCiphered
        (encryptDeep ⟨2⟩ (.obj [("a", .arr [.obj [("%allot", .str "s")]])])) = false ∧
    encryptDeep ⟨2⟩ (.obj [("%allot", .str "root-secret")]) =
      .obj [("%allot", .str "root-secret")] := by
  constructor
  · simp [encryptDeep, encryptDeepObj, encryptDeepArr, encryptEntry, lookupField,
      allAllotsCiphered, allAllotsCipheredObj, allAllotsCipheredArr]
  · simp [encryptDeep, encryptDeepObj, encryptEntry, lookupField]

/-- C3 amended: during `conceal`'s walk, a marker-bearing object has its
marker value encrypted before the split exactly when it occurs as the value
of a field of an enclosing object; markers carried by the root itself or by
direct array elements are copied through and reach the split in plaintext
(see the counterexample).  Every entry-position marker in `encryptDeep`'s
output holds a ciphertext. -/
theorem encryptDeep_encrypts_entry_markers :
    ∀ (key : Key) (v : JVal), entryAllotsCiphered (encryptDeep key v) = true := by
  intro key v
  exact entryACDeep key v

/-! ### C2 -/

/-- The object split processes one field at a time. -/
theorem allotShareObj_cons (i : Nat) (k : String) (v : JVal) (fs : List (String × JVal)) :
    allotShareObj i ((k, v) :: fs) = allotEntry i k v :: allotShareObj i fs := by
  cases v <;> simp [allotShareObj, allotEntry, allotShare]

/-- A non-ciphertext field value is split in place, keeping its key. -/
theorem allotEntry_of_not_cipher (i : Nat) (k : String) (v : JVal)
    (h : ∀ p, v ≠ .cipher p) : allotEntry i k v = (k, allotShare i v) := by
  cases v <;> first
    | rfl
    | exact absurd rfl (h _)

/-- A coercion-free entry value never encrypts to a bare ciphertext. -/
theorem encryptEntry_not_cipher (key : Key) (v : JVal) (hg : goodMarksEntry v = true) :
    ∀ p, encryptEntry key v ≠ .cipher p := by
  intro p
  cases v with
  | obj gs =>
      cases h : lookupField gs "%allot" <;> simp [encryptEntry, h]
  | arr ys => simp [encryptEntry]
  | cipher q => simp [goodMarksEntry] at hg
  | share j q => simp [goodMarksEntry] at hg
  | null => simp [encryptEntry]
  | undef => simp [encryptEntry]
  | bool b => simp [encryptEntry]
  | int n => simp [encryptEntry]
  | str s => simp [encryptEntry]

/-- Values looked up in a coercion-free field list are coercion-free
entries. -/
theorem goodMarksObj_lookup :
    ∀ (gs : List (String × JVal)) (k : String) (v : JVal),
      goodMarksObj gs = true → lookupField gs k = some v → goodMarksEntry v = true := by
  intro gs
  induction gs with
  | nil => intro k v _ hl; simp [lookupField] at hl
  | cons p rest ih =>
    intro k v hg hl
    obtain ⟨k1, v1⟩ := p
    simp only [goodMarksObj, Bool.and_eq_true] at hg
    by_cases h : k1 = k
    · subst h
      simp [lookupField] at hl
      rw [← hl]
      exact hg.1
    · simp [lookupField, h] at hl
      exact ih k v hg.2 hl

/-- Splitting a coercion-free entry never yields a bare share artifact. -/
theorem allotShare_encryptEntry_not_share (key : Key) (i : Nat) (v : JVal)
    (hg : goodMarksEntry v = true) :
    ∀ j p, allotShare i (encryptEntry key v) ≠ .share j p := by
  intro j p
  cases v with
  | obj gs =>
      cases h : lookupField gs "%allot" <;> simp [encryptEntry, h, allotShare]
  | arr ys => simp [encryptEntry, allotShare]
  | cipher q => simp [goodMarksEntry] at hg
  | share j2 q => simp [goodMarksEntry] at hg
  | null => simp [encryptEntry, allotShare]
  | undef => simp [encryptEntry, allotShare]
  | bool b => simp [encryptEntry, allotShare]
  | int n => simp [encryptEntry, allotShare]
  | str s => simp [encryptEntry, allotShare]

/-- Field lookup through encrypt-then-split of a coercion-free object with
no top-level marker. -/
theorem lookup_allot_enc (key : Key) (i : Nat) :
    ∀ (gs : List (String × JVal)), goodMarksObj gs = true →
      lookupField gs "%allot" = none →
      ∀ k, lookupField (allotShareObj i (encryptDeepObj key gs)) k =
        (lookupField gs k).map (fun w => allotShare i (encryptEntry key w)) := by
  intro gs
  induction gs with
  | nil => intro _ _ k; simp [encryptDeepObj, allotShareObj, lookupField]
  | cons p rest ih =>
    intro hg hna k
    obtain ⟨k1, v1⟩ := p
    simp only [goodMarksObj, Bool.and_eq_true] at hg
    have hk1 : k1 ≠ "%allot" := by
      intro he
      simp [lookupField, he] at hna
    have hrest : lookupField rest "%allot" = none := by
      simpa [lookupField, hk1] using hna
    rw [show encryptDeepObj key ((k1, v1) :: rest) =
        (k1, encryptEntry key v1) :: encryptDeepObj key rest from by
      simp [encryptDeepObj]]
    rw [allotShareObj_cons,
        allotEntry_of_not_cipher i k1 _ (encryptEntry_not_cipher key v1 hg.1)]
    by_cases h : k1 = k
    · subst h
      simp [lookupField]
    · simp [lookupField, h, ih hg.2 hrest k]

/-- An object none of whose fields is a bare share artifact recombines
field-wise. -/
theorem unifyEntryVal_obj_no_share (gs : List (String × JVal))
    (h : ∀ j p, lookupField gs "%share" ≠ some (.share j p)) :
    unifyEntryVal (.obj gs) = .obj (unifyObj gs) := by
  cases h2 : lookupField gs "%share" with
  | none => simp [unifyEntryVal, h2]
  | some w =>
      cases w with
      | share j p => exact absurd h2 (h j p)
      | null => simp [unifyEntryVal, h2]
      | undef => simp [unifyEntryVal, h2]
      | bool b => simp [unifyEntryVal, h2]
      | int n => simp [unifyEntryVal, h2]
      | str s => simp [unifyEntryVal, h2]
      | cipher p => simp [unifyEntryVal, h2]
      | arr ys => simp [unifyEntryVal, h2]
      | obj hs => simp [unifyEntryVal, h2]

mutual

/-- Round trip at the value level: split at node 0, then recombine. -/
theorem rtVal (key : Key) : ∀ v : JVal, goodMarks v = true →
    unifyVal (allotShare 0 (encryptDeep key v)) = unmark v
  | .arr xs, hg => by
      simp only [encryptDeep, allotShare, unifyVal, unmark]
      simp only [goodMarks] at hg
      exact congrArg JVal.arr (rtArr key xs hg)
  | .obj fs, hg => by
      simp only [encryptDeep, allotShare, unifyVal, unmark]
      simp only [goodMarks] at hg
      exact congrArg JVal.obj (rtObj key fs hg)
  | .null, _ => rfl
  | .undef, _ => rfl
  | .bool _, _ => rfl
  | .int _, _ => rfl
  | .str _, _ => rfl
  | .cipher _, hg => by simp [goodMarks] at hg
  | .share _ _, hg => by simp [goodMarks] at hg

/-- Round trip on element lists. -/
theorem rtArr (key : Key) : ∀ xs : List JVal, goodMarksArr xs = true →
    unifyArr (allotShareArr 0 (encryptDeepArr key xs)) = unmarkArr xs
  | [], _ => rfl
  | x :: xs, hg => by
      simp only [goodMarksArr, Bool.and_eq_true] at hg
      simp only [encryptDeepArr, allotShareArr, unifyArr, unmarkArr]
      rw [rtVal key x hg.1, rtArr key xs hg.2]

/-- Round trip on field lists. -/
theorem rtObj (key : Key) : ∀ fs : List (String × JVal), goodMarksObj fs = true →
    unifyObj (allotShareObj 0 (encryptDeepObj key fs)) = unmarkObj fs
  | [], _ => rfl
  | (k, v) :: fs, hg => by
      simp only [goodMarksObj, Bool.and_eq_true] at hg
      rw [show encryptDeepObj key ((k, v) :: fs) =
          (k, encryptEntry key v) :: encryptDeepObj key fs from by
        simp [encryptDeepObj]]
      rw [allotShareObj_cons,
          allotEntry_of_not_cipher 0 k _ (encryptEntry_not_cipher key v hg.1)]
      rw [show unifyObj ((k, allotShare 0 (encryptEntry key v)) ::
            allotShareObj 0 (encryptDeepObj key fs)) =
          (k, unifyEntryVal (allotShare 0 (encryptEntry key v))) ::
            unifyObj (allotShareObj 0 (encryptDeepObj key fs)) from by
        simp [unifyObj]]
      rw [rtEntry key v hg.1, rtObj key fs hg.2]
      simp [unmarkObj]

/-- Round trip on one field's value, mirroring `encryptEntry`'s cases. -/
theorem rtEntry (key : Key) : ∀ v : JVal, goodMarksEntry v = true →
    unifyEntryVal (allotShare 0 (encryptEntry key v)) = unmarkEntry v
  | .obj gs, hg => by
      cases h : lookupField gs "%allot" with
      | some p =>
          have hp : (∃ n, p = .int n) ∨ ∃ s, p = .str s := by
            simp only [goodMarksEntry, h] at hg
            cases p <;> simp_all
          rw [show encryptEntry key (.obj gs) =
              .obj [("%allot", .cipher (encryptP key p))] from by
            simp [encryptEntry, h]]
          rw [show allotShare 0 (JVal.obj [("%allot", .cipher (encryptP key p))]) =
              .obj [("%share", .share 0 (encryptP key p))] from by
            simp [allotShare, allotShareObj, allotEntry]]
          rw [show unifyEntryVal (JVal.obj [("%share", .share 0 (encryptP key p))]) =
              plainVal (encryptP key p) from by
            simp [unifyEntryVal, lookupField]]
          rw [show unmarkEntry (JVal.obj gs) = p from by simp [unmarkEntry, h]]
          rcases hp with ⟨n, hn⟩ | ⟨s, hs⟩
          · subst hn; rfl
          · subst hs; rfl
      | none =>
          have hgo : goodMarksObj gs = true := by
            simpa [goodMarksEntry, h] using hg
          rw [show encryptEntry key (.obj gs) = .obj (encryptDeepObj key gs) from by
            simp [encryptEntry, h]]
          rw [show allotShare 0 (JVal.obj (encryptDeepObj key gs)) =
              .obj (allotShareObj 0 (encryptDeepObj key gs)) from by
            simp [allotShare]]
          rw [unifyEntryVal_obj_no_share _ ?hns]
          case hns =>
            intro j p hcontra
            rw [lookup_allot_enc key 0 gs hgo h "%share"] at hcontra
            cases hl : lookupField gs "%share" with
            | none => rw [hl] at hcontra; simp at hcontra
            | some w =>
                rw [hl] at hcontra
                simp only [Option.map_some', Option.some.injEq] at hcontra
                exact allotShare_encryptEntry_not_share key 0 w
                  (goodMarksObj_lookup gs "%share" w hgo hl) j p hcontra
          rw [rtObj key gs hgo]
          simp [unmarkEntry, h]
  | .arr ys, hg => by
      simp only [goodMarksEntry] at hg
      rw [show encryptEntry key (.arr ys) = .arr (encryptDeepArr key ys) from by
        simp [encryptEntry]]
      rw [show allotShare 0 (JVal.arr (encryptDeepArr key ys)) =
          .arr (allotShareArr 0 (encryptDeepArr key ys)) from by
        simp [allotShare]]
      rw [show unifyEntryVal (JVal.arr (allotShareArr 0 (encryptDeepArr key ys))) =
          .arr (unifyArr (allotShareArr 0 (encryptDeepArr key ys))) from by
        simp [unifyEntryVal]]
      rw [rtArr key ys hg]
      simp [unmarkEntry]
  | .null, _ => rfl
  | .undef, _ => rfl
  | .bool _, _ => rfl
  | .int _, _ => rfl
  | .str _, _ => rfl
  | .cipher _, hg => by simp [goodMarksEntry] at hg
  | .share _ _, hg => by simp [goodMarksEntry] at hg

end

/-- C2: for every logical document `d` and key with a positive node count,
`reveal key (conceal key d)` reconstructs the logical document exactly —
`unmark d`, in which each concealed field carries its original value —
whenever no marked value falls under the lossy non-primitive string coercion
(every marked value an integer or a string); in particular every concealed
numeric field round-trips as the exact arbitrary-precision integer
originally supplied, for any magnitude. -/
theorem conceal_reveal_roundtrip (key : Key) (d : JVal)
    (hn : 0 < key.nodes) (hg : goodMarks d = true) :
    reveal key (conceal key d) = unmark d ∧
    (∀ (n : Int) (f : String),
      reveal key (conceal key (.obj [(f, .obj [("%allot", .int n)])])) =
        .obj [(f, .int n)]) := by
  have main : ∀ v : JVal, goodMarks v = true → reveal key (conceal key v) = unmark v := by
    intro v hv
    unfold reveal conceal allot
    obtain ⟨m, hm⟩ : ∃ m, key.nodes = m + 1 := ⟨key.nodes - 1, by omega⟩
    rw [hm, List.range_succ_eq_map]
    simp only [List.map_cons, List.headD_cons]
    exact rtVal key v hv
  refine ⟨main d hg, ?_⟩
  intro n f
  have hgood : goodMarks (JVal.obj [(f, .obj [("%allot", .int n)])]) = true := by
    simp [goodMarks, goodMarksObj, goodMarksEntry, lookupField]
  rw [main _ hgood]
  simp [unmark, unmarkObj, unmarkEntry, lookupField]

/-- Concrete run for C2: the spec's example document under a 3-node key,
with an additional big-integer field. -/
theorem conceal_reveal_roundtrip_witness :
    0 < (Key.mk 3).nodes ∧
    goodMarks (JVal.obj [("patientId", .obj [("%allot", .str "P12345")]),
      ("balance", .obj [("%allot", .int 123456789012345678901234567890)]),
      ("hospital", .str "General Hospital")]) = true ∧
    reveal ⟨3⟩ (conceal ⟨3⟩ (JVal.obj [("patientId", .obj [("%allot", .str "P12345")]),
      ("balance", .obj [("%allot", .int 123456789012345678901234567890)]),
      ("hospital", .str "General Hospital")])) =
      unmark (JVal.obj [("patientId", .obj [("%allot", .str "P12345")]),
        ("balance", .obj [("%allot", .int 123456789012345678901234567890)]),
        ("hospital", .str "General Hospital")]) := by
  have hgood : goodMarks (JVal.obj [("patientId", .obj [("%allot", .str "P12345")]),
      ("balance", .obj [("%allot", .int 123456789012345678901234567890)]),
      ("hospital", .str "General Hospital")]) = true := by
    simp [goodMarks, goodMarksObj, goodMarksEntry, lookupField]
  exact ⟨by decide, hgood,
    (conceal_reveal_roundtrip ⟨3⟩ _ (by decide) hgood).1⟩

/-! ### Grouping lemmas for the concealed list response -/

/-- Reading a key-indexed map of a key list. -/
theorem mapGet_map_self {κ β : Type} [DecidableEq κ] (F : κ → β) :
    ∀ (keys : List κ) (k : κ),
      mapGet (keys.map fun id => (id, F id)) k =
        if k ∈ keys then some (F k) else none := by
  intro keys
  induction keys with
  | nil => intro k; simp [mapGet]
  | cons a rest ih =>
    intro k
    by_cases h : a = k
    · subst h
      simp [mapGet]
    · simp [mapGet, h, ih k, Ne.symm h]

/-- Setting a present key updates that key's value in place. -/
theorem mapSet_map_mem {κ β : Type} [DecidableEq κ] (F : κ → β) :
    ∀ (keys : List κ) (k : κ) (v : β), keys.Nodup → k ∈ keys →
      mapSet (keys.map fun id => (id, F id)) k v =
        keys.map fun id => (id, if id = k then v else F id) := by
  intro keys
  induction keys with
  | nil => intro k v _ hm; simp at hm
  | cons a rest ih =>
    intro k v hnd hm
    rw [List.nodup_cons] at hnd
    by_cases h : a = k
    · subst h
      simp only [List.map_cons, mapSet, if_pos rfl]
      have : ∀ id ∈ rest, (id, if id = a then v else F id) = (id, F id) := by
        intro id hid
        have : id ≠ a := fun he => hnd.1 (he ▸ hid)
        simp [this]
      rw [List.map_congr_left this]
      simp
    · have hm2 : k ∈ rest := by
        cases hm with
        | head => exact absurd rfl h
        | tail _ hm2 => exact hm2
      simp only [List.map_cons, mapSet, h, if_neg h]
      rw [ih k v hnd.2 hm2]
      simp [h]

/-- Setting an absent key appends it. -/
theorem mapSet_map_not_mem {κ β : Type} [DecidableEq κ] (F : κ → β) :
    ∀ (keys : List κ) (k : κ) (v : β), k ∉ keys →
      mapSet (keys.map fun id => (id, F id)) k v =
        (keys.map fun id => (id, F id)) ++ [(k, v)] := by
  intro keys
  induction keys with
  | nil => intro k v _; simp [mapSet]
  | cons a rest ih =>
    intro k v hm
    have ha : a ≠ k := fun he => hm (he ▸ List.mem_cons_self a rest)
    have hrest : k ∉ rest := fun hk => hm (List.mem_cons_of_mem a hk)
    simp only [List.map_cons, mapSet, if_neg ha]
    rw [ih k v hrest]
    simp

/-- Membership through the first-seen fold. -/
theorem mem_foldl_dedup {κ : Type} [DecidableEq κ] :
    ∀ (l acc : List κ) (a : κ),
      a ∈ l.foldl (fun acc k => if k ∈ acc then acc else acc ++ [k]) acc ↔
        a ∈ acc ∨ a ∈ l := by
  intro l
  induction l with
  | nil => intro acc a; simp
  | cons x xs ih =>
    intro acc a
    simp only [List.foldl_cons]
    rw [ih]
    by_cases hx : x ∈ acc
    · rw [if_pos hx]
      constructor
      · rintro (h | h)
        · exact Or.inl h
        · exact Or.inr (List.mem_cons_of_mem x h)
      · rintro (h | h)
        · exact Or.inl h
        · cases List.mem_cons.mp h with
          | inl he => exact Or.inl (he ▸ hx)
          | inr hm => exact Or.inr hm
    · rw [if_neg hx]
      simp only [List.mem_append, List.mem_singleton, List.mem_cons]
      tauto

/-- Membership in the first-seen deduplication. -/
theorem mem_dedupFirst (l : List JVal) (a : JVal) : a ∈ dedupFirst l ↔ a ∈ l := by
  unfold dedupFirst
  rw [mem_foldl_dedup]
  simp

/-- The first-seen fold keeps the accumulator duplicate-free. -/
theorem nodup_foldl_dedup {κ : Type} [DecidableEq κ] :
    ∀ (l acc : List κ), acc.Nodup →
      (l.foldl (fun acc k => if k ∈ acc then acc else acc ++ [k]) acc).Nodup := by
  intro l
  induction l with
  | nil => intro acc h; simpa using h
  | cons x xs ih =>
    intro acc h
    simp only [List.foldl_cons]
    by_cases hx : x ∈ acc
    · rw [if_pos hx]; exact ih acc h
    · rw [if_neg hx]
      exact ih (acc ++ [x]) (by simp [List.nodup_append, h, hx])

/-- The first-seen deduplication is duplicate-free. -/
theorem dedupFirst_nodup (l : List JVal) : (dedupFirst l).Nodup :=
  nodup_foldl_dedup l [] List.nodup_nil

/-- First-seen deduplication over a snoc. -/
theorem dedupFirst_concat (l : List JVal) (k : JVal) :
    dedupFirst (l ++ [k]) =
      if k ∈ dedupFirst l then dedupFirst l else dedupFirst l ++ [k] := by
  unfold dedupFirst
  rw [List.foldl_append]
  rfl

/-- No occurrence of an id among a document list's ids means no document
bears it. -/
theorem filter_docId_eq_nil (ds : List JVal) (id : JVal) (h : id ∉ ds.filterMap docId) :
    ds.filter (fun d => docId d = some id) = [] := by
  rw [List.filter_eq_nil]
  intro d hd hcontra
  simp only [decide_eq_true_eq] at hcontra
  exact h (List.mem_filterMap.mpr ⟨d, hd, hcontra⟩)

/-- The grouping fold of `processConcealedListResponse` produces, in first-
seen id order, one group per distinct truthy id holding exactly the documents
bearing that id, in arrival order. -/
theorem groupShares_eq :
    ∀ docs : List JVal,
      groupShares docs = (dedupFirst (docs.filterMap docId)).map
        (fun id => (id, docs.filter fun d => docId d = some id)) := by
  intro docs
  induction docs using List.reverseRecOn with
  | nil => simp [groupShares, dedupFirst]
  | append_singleton ds d ih =>
    have hstep : groupShares (ds ++ [d]) = groupStep (groupShares ds) d := by
      unfold groupShares
      rw [List.foldl_append]
      rfl
    rw [hstep, ih]
    cases hdoc : docId d with
    | none =>
      simp only [groupStep, hdoc]
      rw [List.filterMap_append]
      simp only [List.filterMap_cons, hdoc]
      simp only [List.filterMap_nil, List.append_nil]
      apply List.map_congr_left
      intro id _
      rw [List.filter_append]
      simp [hdoc]
    | some id0 =>
      simp only [groupStep, hdoc]
      rw [List.filterMap_append]
      simp only [List.filterMap_cons, hdoc, List.filterMap_nil]
      rw [mapGet_map_self]
      rw [dedupFirst_concat]
      by_cases hmem : id0 ∈ dedupFirst (ds.filterMap docId)
      · rw [if_pos hmem, if_pos hmem]
        simp only [Option.getD_some]
        rw [mapSet_map_mem _ _ _ _ (dedupFirst_nodup _) hmem]
        apply List.map_congr_left
        intro id _
        rw [List.filter_append]
        by_cases h : id = id0
        · subst h
          simp [hdoc]
        · simp [hdoc, h, Ne.symm h]
      · rw [if_neg hmem, if_neg hmem]
        simp only [Option.getD_none, List.nil_append]
        rw [mapSet_map_not_mem _ _ _ _ hmem]
        rw [List.map_append]
        congr 1
        · apply List.map_congr_left
          intro id hid
          have hne : id ≠ id0 := fun he => hmem (he ▸ hid)
          rw [List.filter_append]
          simp [hdoc, hne, Ne.symm hne]
        · have hnil : ds.filter (fun d2 => docId d2 = some id0) = [] :=
            filter_docId_eq_nil ds id0 (fun hc => hmem ((mem_dedupFirst _ _).mpr hc))
          simp [List.filter_append, hdoc, hnil]

/-! ### C7 -/

/-- C7: `processConcealedListResponse` flattens all nodes' document arrays,
groups by the document identity field, and returns exactly one revealed
document per distinct identity, where each identity's `reveal` receives
exactly the shares bearing that identity (in arrival order).  Concretely,
two nodes each holding shares of "doc1" and "doc2" yield exactly the two
revealed documents with the originally-concealed values, under either
ordering of the nodes' arrays. -/
theorem processConcealedListResponse_grouping :
    (∀ (key : Key) (results : List (String × List JVal)),
      processConcealedListResponse key results =
        (dedupFirst (((results.map Prod.snd).flatten).filterMap docId)).map
          (fun id => reveal key (((results.map Prod.snd).flatten).filter
            (fun d => docId d = some id)))) ∧
    processConcealedListResponse ⟨2⟩
        [("node-1",
          [.obj [("_id", .str "doc1"), ("name", .str "Alice"),
                 ("secret", .obj [("%share", .share 0 (.str "secret1"))])],
           .obj [("_id", .str "doc2"), ("name", .str "Bob"),
                 ("secret", .obj [("%share", .share 0 (.str "secret2"))])]]),
         ("node-2",
          [.obj [("_id", .str "doc1"), ("name", .str "Alice"),
                 ("secret", .obj [("%share", .share 1 (.str "secret1"))])],
           .obj [("_id", .str "doc2"), ("name", .str "Bob"),
                 ("secret", .obj [("%share", .share 1 (.str "secret2"))])]])] =
      [.obj [("_id", .str "doc1"), ("name", .str "Alice"), ("secret", .str "secret1")],
       .obj [("_id", .str "doc2"), ("name", .str "Bob"), ("secret", .str "secret2")]] ∧
    processConcealedListResponse ⟨2⟩
        [("node-1",
          [.obj [("_id", .str "doc2"), ("name", .str "Bob"),
                 ("secret", .obj [("%share", .share 0 (.str "secret2"))])],
           .obj [("_id", .str "doc1"), ("name", .str "Alice"),
                 ("secret", .obj [("%share", .share 0 (.str "secret1"))])]]),
         ("node-2",
          [.obj [("_id", .str "doc2"), ("name", .str "Bob"),
                 ("secret", .obj [("%share", .share 1 (.str "secret2"))])],
           .obj [("_id", .str "doc1"), ("name", .str "Alice"),
                 ("secret", .obj [("%share", .share 1 (.str "secret1"))])]])] =
      [.obj [("_id", .str "doc2"), ("name", .str "Bob"), ("secret", .str "secret2")],
       .obj [("_id", .str "doc1"), ("name", .str "Alice"), ("secret", .str "secret1")]] := by
  refine ⟨?_, ?_, ?_⟩
  · intro key results
    simp only [processConcealedListResponse]
    rw [groupShares_eq, List.map_map]
    rfl
  · simp [processConcealedListResponse, groupShares, groupStep, docId, lookupField,
      jsTruthy, mapGet, mapSet, reveal, unifyVal, unifyObj, unifyEntryVal, plainVal]
  · simp [processConcealedListResponse, groupShares, groupStep, docId, lookupField,
      jsTruthy, mapGet, mapSet, reveal, unifyVal, unifyObj, unifyEntryVal, plainVal]

/-! ### C9 -/

/-- Dropping falsy-id documents leaves the id stream unchanged. -/
theorem filterMap_docId_filter_isSome (l : List JVal) :
    (l.filter fun d => (docId d).isSome).filterMap docId = l.filterMap docId := by
  induction l with
  | nil => rfl
  | cons d rest ih =>
    cases h : docId d with
    | none => simp [List.filter_cons, List.filterMap_cons, h, ih]
    | some id => simp [List.filter_cons, List.filterMap_cons, h, ih]

/-- Dropping falsy-id documents leaves every id's share group unchanged. -/
theorem filter_docId_filter_isSome (l : List JVal) (id : JVal) :
    (l.filter fun d => (docId d).isSome).filter (fun d => docId d = some id) =
      l.filter (fun d => docId d = some id) := by
  induction l with
  | nil => rfl
  | cons d rest ih =>
    cases h : docId d with
    | none => simp [List.filter_cons, h, ih]
    | some id2 => simp [List.filter_cons, h, ih]

/-- Per-node filtering commutes with flattening the nodes' arrays. -/
theorem flatten_map_filter (results : List (String × List JVal)) (q : JVal → Bool) :
    (((results.map fun p => (p.1, p.2.filter q)).map Prod.snd).flatten) =
      ((results.map Prod.snd).flatten).filter q := by
  rw [List.map_map]
  rw [show (Prod.snd ∘ fun p : String × List JVal => (p.1, p.2.filter q)) =
      fun p : String × List JVal => p.2.filter q from rfl]
  rw [List.filter_flatten]
  rw [List.map_map]
  rfl

/-- C9: a document entry whose `_id` is absent, empty, or otherwise falsy is
silently excluded by `processConcealedListResponse` — removing all such
entries from every node's array leaves the result unchanged, every group
holds only truthy-id documents, and no error arises (the function is
total). -/
theorem falsy_id_docs_excluded :
    ∀ (key : Key) (results : List (String × List JVal)),
      processConcealedListResponse key
          (results.map fun p => (p.1, p.2.filter fun d => (docId d).isSome)) =
        processConcealedListResponse key results ∧
      ((groupShares ((results.map Prod.snd).flatten)).all fun g =>
        g.2.all fun d => (docId d).isSome) = true := by
  intro key results
  constructor
  · simp only [processConcealedListResponse]
    rw [flatten_map_filter]
    rw [groupShares_eq, groupShares_eq]
    rw [List.map_map, List.map_map]
    rw [filterMap_docId_filter_isSome]
    apply List.map_congr_left
    intro id _
    simp only [Function.comp_apply]
    rw [filter_docId_filter_isSome]
  · rw [groupShares_eq]
    rw [List.all_eq_true]
    intro g hg
    rw [List.mem_map] at hg
    obtain ⟨id, _, hid⟩ := hg
    rw [List.all_eq_true]
    intro d hd
    rw [← hid] at hd
    simp only [List.mem_filter, decide_eq_true_eq] at hd
    simp [hd.2]

/-! ### C6 -/

mutual

/-- `structuredClone` allocates only fresh addresses (all in the interval
between the incoming and outgoing counter) and preserves the value. -/
theorem cloneR_spec : ∀ (c : Nat) (v : RVal),
    c ≤ (cloneR c v).2 ∧
    (∀ a ∈ addrsR (cloneR c v).1, c ≤ a ∧ a < (cloneR c v).2) ∧
    eraseR (cloneR c v).1 = eraseR v
  | c, .prim p => by simp [cloneR, addrsR]
  | c, .robj a0 fs => by
      obtain ⟨h1, h2, h3⟩ := cloneRObj_spec (c + 1) fs
      refine ⟨by simp only [cloneR]; omega, ?_, ?_⟩
      · intro a ha
        simp only [cloneR, addrsR, List.mem_cons] at ha ⊢
        cases ha with
        | inl he => subst he; omega
        | inr hm => have := h2 a hm; omega
      · simp only [cloneR, eraseR]
        rw [h3]
  | c, .rarr a0 xs => by
      obtain ⟨h1, h2, h3⟩ := cloneRArr_spec (c + 1) xs
      refine ⟨by simp only [cloneR]; omega, ?_, ?_⟩
      · intro a ha
        simp only [cloneR, addrsR, List.mem_cons] at ha ⊢
        cases ha with
        | inl he => subst he; omega
        | inr hm => have := h2 a hm; omega
      · simp only [cloneR, eraseR]
        rw [h3]

/-- Clone of an element list: counter and address bounds, value
preservation. -/
theorem cloneRArr_spec : ∀ (c : Nat) (xs : List RVal),
    c ≤ (cloneRArr c xs).2 ∧
    (∀ a ∈ addrsRArr (cloneRArr c xs).1, c ≤ a ∧ a < (cloneRArr c xs).2) ∧
    eraseRArr (cloneRArr c xs).1 = eraseRArr xs
  | c, [] => by simp [cloneRArr, addrsRArr]
  | c, x :: xs => by
      obtain ⟨h1, h2, h3⟩ := cloneR_spec c x
      obtain ⟨g1, g2, g3⟩ := cloneRArr_spec (cloneR c x).2 xs
      refine ⟨by simp only [cloneRArr]; omega, ?_, ?_⟩
      · intro a ha
        simp only [cloneRArr, addrsRArr, List.mem_append] at ha ⊢
        cases ha with
        | inl hm => have := h2 a hm; omega
        | inr hm => have := g2 a hm; omega
      · simp only [cloneRArr, eraseRArr]
        rw [h3, g3]

/-- Clone of a field list: counter and address bounds, value
preservation. -/
theorem cloneRObj_spec : ∀ (c : Nat) (fs : List (String × RVal)),
    c ≤ (cloneRObj c fs).2 ∧
    (∀ a ∈ addrsRObj (cloneRObj c fs).1, c ≤ a ∧ a < (cloneRObj c fs).2) ∧
    eraseRObj (cloneRObj c fs).1 = eraseRObj fs
  | c, [] => by simp [cloneRObj, addrsRObj]
  | c, (k, v) :: fs => by
      obtain ⟨h1, h2, h3⟩ := cloneR_spec c v
      obtain ⟨g1, g2, g3⟩ := cloneRObj_spec (cloneR c v).2 fs
      refine ⟨by simp only [cloneRObj]; omega, ?_, ?_⟩
      · intro a ha
        simp only [cloneRObj, addrsRObj, List.mem_append] at ha ⊢
        cases ha with
        | inl hm => have := h2 a hm; omega
        | inr hm => have := g2 a hm; omega
      · simp only [cloneRObj, eraseRObj]
        rw [h3, g3]

end

mutual

/-- Mutating an object that does not occur in a value leaves it
unchanged. -/
theorem mutateR_not_mem : ∀ (target : Nat) (k : String) (w v : RVal),
    target ∉ addrsR v → mutateR target k w v = v
  | target, k, w, .prim p, _ => by simp [mutateR]
  | target, k, w, .robj a fs, h => by
      simp only [addrsR, List.mem_cons, not_or] at h
      have hne : a ≠ target := fun he => h.1 he.symm
      simp only [mutateR, mutateRObj_not_mem target k w fs h.2, if_neg hne]
  | target, k, w, .rarr a xs, h => by
      simp only [addrsR, List.mem_cons, not_or] at h
      simp only [mutateR, mutateRArr_not_mem target k w xs h.2]

/-- Mutation of an absent object is invisible through an element list. -/
theorem mutateRArr_not_mem : ∀ (target : Nat) (k : String) (w : RVal) (xs : List RVal),
    target ∉ addrsRArr xs → mutateRArr target k w xs = xs
  | target, k, w, [], _ => rfl
  | target, k, w, x :: xs, h => by
      simp only [addrsRArr, List.mem_append, not_or] at h
      simp only [mutateRArr, mutateR_not_mem target k w x h.1,
        mutateRArr_not_mem target k w xs h.2]

/-- Mutation of an absent object is invisible through a field list. -/
theorem mutateRObj_not_mem : ∀ (target : Nat) (k : String) (w : RVal)
    (fs : List (String × RVal)),
    target ∉ addrsRObj fs → mutateRObj target k w fs = fs
  | target, k, w, [], _ => rfl
  | target, k, w, (k1, v) :: fs, h => by
      simp only [addrsRObj, List.mem_append, not_or] at h
      simp only [mutateRObj, mutateR_not_mem target k w v h.1,
        mutateRObj_not_mem target k w fs h.2]

end

/-- The no-key fan-out: counters grow, every prepared body is a value copy
of the input with addresses drawn from the allocation interval, and distinct
bodies share no address. -/
theorem prepareRequestNoKeyR_spec :
    ∀ (clients : List Client) (body : RVal) (c0 : Nat),
      c0 ≤ (prepareRequestNoKeyR clients body c0).2 ∧
      (∀ p ∈ (prepareRequestNoKeyR clients body c0).1,
        eraseR p.2 = eraseR body ∧
        ∀ a ∈ addrsR p.2, c0 ≤ a ∧ a < (prepareRequestNoKeyR clients body c0).2) ∧
      List.Pairwise (fun p q => ∀ a ∈ addrsR p.2, a ∉ addrsR q.2)
        (prepareRequestNoKeyR clients body c0).1 := by
  intro clients
  induction clients with
  | nil => intro body c0; simp [prepareRequestNoKeyR]
  | cons cl rest ih =>
    intro body c0
    obtain ⟨h1, h2, h3⟩ := cloneR_spec c0 body
    obtain ⟨g1, g2, g3⟩ := ih body (cloneR c0 body).2
    refine ⟨?_, ?_, ?_⟩
    · simp only [prepareRequestNoKeyR]
      omega
    · intro p hp
      simp only [prepareRequestNoKeyR, List.mem_cons] at hp
      cases hp with
      | inl he =>
          subst he
          refine ⟨h3, ?_⟩
          intro a ha
          have := h2 a ha
          simp only [prepareRequestNoKeyR]
          omega
      | inr hm =>
          obtain ⟨e1, e2⟩ := g2 p hm
          refine ⟨e1, ?_⟩
          intro a ha
          have := e2 a ha
          simp only [prepareRequestNoKeyR]
          omega
    · simp only [prepareRequestNoKeyR]
      rw [List.pairwise_cons]
      refine ⟨?_, g3⟩
      intro q hq a ha hcontra
      have hlt := (h2 a ha).2
      have hge := ((g2 q hq).2 a hcontra).1
      omega

/-- C6 counterexample: `preparePlaintextRequest` spreads only the root
(`{ ...body }`), so the nested object (address 1) is shared between the two
nodes' prepared bodies; mutating it through node 1's body changes the value
observed through node 2's body.  This refutes the claim for the
`preparePlaintextRequest` preparer it names. -/
theorem preparePlaintextRequest_shallow_copy_aliasing :
    (preparePlaintextRequestR [⟨"node-1"⟩, ⟨"node-2"⟩]
        (.robj 0 [("a", .robj 1 [("x", .prim (.int 1))])]) 2).1 =
      [("node-1", .robj 2 [("a", .robj 1 [("x", .prim (.int 1))])]),
       ("node-2", .robj 3 [("a", .robj 1 [("x", .prim (.int 1))])])] ∧
    1 ∈ addrsR (.robj 2 [("a", .robj 1 [("x", .prim (.int 1))])]) ∧
    mutateR 1 "x" (.prim (.int 2)) (.robj 3 [("a", .robj 1 [("x", .prim (.int 1))])]) =
      .robj 3 [("a", .robj 1 [("x", .prim (.int 2))])] ∧
    readPathR (.robj 3 [("a", .robj 1 [("x", .prim (.int 2))])]) ["a", "x"] ≠
      readPathR (.robj 3 [("a", .robj 1 [("x", .prim (.int 1))])]) ["a", "x"] := by
  refine ⟨?_, ?_, ?_, ?_⟩
  · simp [preparePlaintextRequestR, spreadCopyR]
  · simp [addrsR, addrsRObj]
  · simp [mutateR, mutateRObj, objSetR]
  · simp [readPathR]

/-- C6 amended: with no confidentiality key, `prepareRequest` hands each
node an independent structural deep copy (`structuredClone`): the copies are
value-identical to the body, no field altered, and pairwise share no object
address, so mutating any nested part reachable from one node's prepared body
leaves every other node's body untouched.  `preparePlaintextRequest`, by
contrast, only spreads the root (see the counterexample). -/
theorem prepareRequest_deep_copy_independent :
    ∀ (clients : List Client) (body : RVal) (c0 : Nat) (i j : Nat)
      (pi2 pj2 : String × RVal),
      ((prepareRequestNoKeyR clients body c0).1).get? i = some pi2 →
      ((prepareRequestNoKeyR clients body c0).1).get? j = some pj2 →
      i ≠ j →
      eraseR pi2.2 = eraseR body ∧
      ∀ a ∈ addrsR pi2.2, ∀ (k : String) (w : RVal), mutateR a k w pj2.2 = pj2.2 := by
  intro clients body c0 i j pi2 pj2 hi hj hij
  obtain ⟨-, h2, h3⟩ := prepareRequestNoKeyR_spec clients body c0
  have hmi : pi2 ∈ (prepareRequestNoKeyR clients body c0).1 := List.get?_mem hi
  refine ⟨(h2 pi2 hmi).1, ?_⟩
  intro a ha k w
  apply mutateR_not_mem
  rw [List.pairwise_iff_getElem] at h3
  have hi2 := hi
  have hj2 := hj
  rw [List.get?_eq_getElem?] at hi2 hj2
  rw [List.getElem?_eq_some_iff] at hi2 hj2
  obtain ⟨hilt, hieq⟩ := hi2
  obtain ⟨hjlt, hjeq⟩ := hj2
  rcases Nat.lt_or_ge i j with hlt | hge
  · have := h3 i j hilt hjlt hlt
    rw [hieq, hjeq] at this
    exact this a ha
  · have hjl : j < i := by omega
    have := h3 j i hjlt hilt hjl
    rw [hieq, hjeq] at this
    intro hcontra
    exact this a hcontra ha

/-- Concrete run for the amended C6: two clones of a nested body are
value-equal to it, and mutating the nested object of node 1's clone leaves
node 2's clone untouched. -/
theorem prepareRequest_deep_copy_independent_witness :
    ((prepareRequestNoKeyR [⟨"node-1"⟩, ⟨"node-2"⟩]
        (.robj 0 [("a", .robj 1 [("x", .prim (.int 1))])]) 2).1).get? 0 =
      some ("node-1", .robj 2 [("a", .robj 3 [("x", .prim (.int 1))])]) ∧
    ((prepareRequestNoKeyR [⟨"node-1"⟩, ⟨"node-2"⟩]
        (.robj 0 [("a", .robj 1 [("x", .prim (.int 1))])]) 2).1).get? 1 =
      some ("node-2", .robj 4 [("a", .robj 5 [("x", .prim (.int 1))])]) ∧
    (0 : Nat) ≠ 1 ∧
    eraseR (RVal.robj 2 [("a", .robj 3 [("x", .prim (.int 1))])]) =
      eraseR (.robj 0 [("a", .robj 1 [("x", .prim (.int 1))])]) ∧
    ∀ a ∈ addrsR (RVal.robj 2 [("a", .robj 3 [("x", .prim (.int 1))])]),
      ∀ (k : String) (w : RVal),
        mutateR a k w (RVal.robj 4 [("a", .robj 5 [("x", .prim (.int 1))])]) =
          .robj 4 [("a", .robj 5 [("x", .prim (.int 1))])] := by
  have hi : ((prepareRequestNoKeyR [⟨"node-1"⟩, ⟨"node-2"⟩]
      (.robj 0 [("a", .robj 1 [("x", .prim (.int 1))])]) 2).1).get? 0 =
      some ("node-1", .robj 2 [("a", .robj 3 [("x", .prim (.int 1))])]) := by
    simp [prepareRequestNoKeyR, cloneR, cloneRObj]
  have hj : ((prepareRequestNoKeyR [⟨"node-1"⟩, ⟨"node-2"⟩]
      (.robj 0 [("a", .robj 1 [("x", .prim (.int 1))])]) 2).1).get? 1 =
      some ("node-2", .robj 4 [("a", .robj 5 [("x", .prim (.int 1))])]) := by
    simp [prepareRequestNoKeyR, cloneR, cloneRObj]
  have hmain := prepareRequest_deep_copy_independent
    [⟨"node-1"⟩, ⟨"node-2"⟩] (.robj 0 [("a", .robj 1 [("x", .prim (.int 1))])]) 2
    0 1 ("node-1", .robj 2 [("a", .robj 3 [("x", .prim (.int 1))])])
    ("node-2", .robj 4 [("a", .robj 5 [("x", .prim (.int 1))])]) hi hj (by decide)
  exact ⟨hi, hj, by decide, hmain.1, hmain.2⟩

end SecretVaults
